import Mathlib

/-!
Verification development for the PatentAutomationApp repository
(src/tkinter.py and src/PatentAutomationApp.py).

The tabular store is a CSV artifact: a header row (the schema) and data
rows of string cells.  The Python code manipulates it via
`update_csv_with_email_data` (read-modify-write upsert keyed on the first
two cells), `update_csv_with_specific_row` (header recomputation and
targeted row update), `process_application_details`
(PatentAutomationApp.py: unconditional append of a detail row),
`process_email_applications` / `process_applications` (retry orchestrator
with cancellation), and `generate_filtered_data` (filter-predicate export).

Python dictionaries are modelled as insertion-ordered association lists
with replace-on-insert; Python sets are modelled as duplicate-free lists
in insertion order (a deterministic refinement of the arbitrary iteration
order of CPython sets; no theorem below depends on the chosen order beyond
set membership).  Exceptions raised and caught inside a function are
modelled with `Except`; a caught-and-logged exception leaves the persisted
state unchanged, which is exactly the caller-visible effect of the Python
`except` blocks that log and return.
-/

/-- Python dict lookup: the association list is kept duplicate-free by
`dict_insert`, so first match is the only match. -/
def dict_get (d : List (String × String)) (k : String) : Option String :=
  match d.find? (fun p => p.1 == k) with
  | some p => some p.2
  | none => none

/-- Python `d.get(k, default)`. -/
def dict_getD (d : List (String × String)) (k : String) (dflt : String) : String :=
  (dict_get d k).getD dflt

/-- Python `k in d`. -/
def dict_has (d : List (String × String)) (k : String) : Bool :=
  (dict_get d k).isSome

/-- Python `d[k] = v`: replace in place if the key exists, else append
(insertion order preserved, keys unique). -/
def dict_insert (d : List (String × String)) (k : String) (v : String) :
    List (String × String) :=
  match d with
  | [] => [(k, v)]
  | p :: rest =>
    if p.1 == k then (k, v) :: rest else p :: dict_insert rest k v

deriving instance DecidableEq for Except

/-- The persisted tabular store: header row plus data rows, as read by
`csv.reader` (no shape validation of any kind). -/
structure CsvState where
  headers : List String
  rows : List (List String)
  deriving Repr, DecidableEq

/-- `next(reader)` then `list(reader)` (src/tkinter.py lines 895-898):
splits the artifact into header and data rows.  An empty artifact raises
`StopIteration` (modelled as `none`); NO column-count validation is
performed — rows of any length are accepted as-is. -/
def read_csv_rows : List (List String) → Option (List String × List (List String))
  | [] => none
  | h :: t => some (h, t)

/-- The row-lookup loop of `update_csv_with_email_data`
(src/tkinter.py lines 922-927): first row whose cells 0 and 1 equal the
email and the application number.  Accessing `row[0]` on an empty row, or
`row[1]` on a one-cell row whose first cell matched the email, raises
`IndexError` (the `.error` case). -/
def find_row : List (List String) → String → String → Except Unit (Option Nat)
  | [], _, _ => .ok none
  | [] :: _, _, _ => .error ()
  | [c0] :: rest, email, app =>
    if c0 == email then .error ()
    else (find_row rest email app).map (Option.map (· + 1))
  | (c0 :: c1 :: _) :: rest, email, app =>
    if c0 == email then
      if c1 == app then .ok (some 0)
      else (find_row rest email app).map (Option.map (· + 1))
    else (find_row rest email app).map (Option.map (· + 1))

/-- New-row construction (src/tkinter.py lines 930-934):
`[row_data.get(header, '') for header in headers]`. -/
def new_row (headers : List String) (rowData : List (String × String)) : List String :=
  headers.map (fun h => dict_getD rowData h "")

/-- The in-place update loop (src/tkinter.py lines 936-939):
`for i, header in enumerate(headers): if header in row_data: row[i] = row_data[header]`.
Assigning past the end of the row raises `IndexError`. -/
def apply_updates_go (rowData : List (String × String)) :
    List String → Nat → List String → Except Unit (List String)
  | [], _, row => .ok row
  | h :: hs, i, row =>
    match dict_get rowData h with
    | none => apply_updates_go rowData hs (i + 1) row
    | some v =>
      if i < row.length then apply_updates_go rowData hs (i + 1) (row.set i v)
      else .error ()

/-- The read-modify-write body of `update_csv_with_email_data`
(src/tkinter.py lines 922-945), parametrised by the prepared `row_data`
dict: find by composite key, then update in place or append. -/
def upsert_go (st : CsvState) (email app : String)
    (rowData : List (String × String)) : Except Unit CsvState :=
  match find_row st.rows email app with
  | .error _ => .error ()
  | .ok none => .ok ⟨st.headers, st.rows ++ [new_row st.headers rowData]⟩
  | .ok (some i) =>
    match apply_updates_go rowData st.headers 0 (st.rows.getD i []) with
    | .error _ => .error ()
    | .ok r => .ok ⟨st.headers, st.rows.set i r⟩

/-- `row_data` preparation of `update_csv_with_email_data`
(src/tkinter.py lines 905-920): Email and Application Number first, then
the basic cells positionally paired with `self.table_headers`, then the
detail columns of both detail lists under a `_AD` suffix (later
assignments overwrite earlier ones, as in a Python dict). -/
def build_row_data (tableHeaders basicRow h1 d1 h3 d3 : List String)
    (email app : String) : List (String × String) :=
  let d0 := dict_insert (dict_insert [] "Email" email) "Application Number" app
  let dB := (tableHeaders.zip basicRow).foldl (fun d p => dict_insert d p.1 p.2) d0
  let dC := (h1.zip d1).foldl (fun d p => dict_insert d (p.1 ++ "_AD") p.2) dB
  (h3.zip d3).foldl (fun d p => dict_insert d (p.1 ++ "_AD") p.2) dC

/-- The per-record detail payload (`details_data` in src/tkinter.py). -/
structure DetailsData where
  basicRow : List String
  headersCol1 : List String
  dataCol1 : List String
  headersCol3 : List String
  dataCol3 : List String
  deriving Repr, DecidableEq

/-- `update_csv_with_email_data` (src/tkinter.py lines 888-952) as seen by
its caller: the whole body is wrapped in `try/except`, every exception is
caught and logged, and the function returns normally either way.  Returns
the resulting store and whether the error branch was taken (in which case
the artifact is left unchanged — the rewrite never happened). -/
def update_csv_with_email_data (tableHeaders : List String) (st : CsvState)
    (email app : String) (dd : DetailsData) : CsvState × Bool :=
  match upsert_go st email app
      (build_row_data tableHeaders dd.basicRow dd.headersCol1 dd.dataCol1
        dd.headersCol3 dd.dataCol3 email app) with
  | .ok st' => (st', false)
  | .error _ => (st, true)

/-- The composite key of a row: its first two cells (missing cells read as
empty, matching a row that is too short to carry the key). -/
def row_key (r : List String) : String × String :=
  (r.getD 0 "", r.getD 1 "")

/-- No two data rows share the same composite key. -/
def uniq_keys : List (List String) → Bool
  | [] => true
  | r :: rest => rest.all (fun s => row_key s != row_key r) && uniq_keys rest

/-- One upsert as the caller of `update_csv_with_email_data` sees the
artifact: a successful read-modify-write replaces the file, a caught
exception leaves it as it was. -/
def upsert_email_data (st : CsvState) (email app : String)
    (rowData : List (String × String)) : CsvState :=
  match upsert_go st email app rowData with
  | .ok st' => st'
  | .error _ => st

/-- A sequence of upserts through the core of `update_csv_with_email_data`,
each command carrying its identity and prepared field map. -/
def run_upserts (st : CsvState)
    (cmds : List (String × String × List (String × String))) : CsvState :=
  cmds.foldl (fun s c => upsert_email_data s c.1 c.2.1 c.2.2) st

/-- `process_application_details` (src/PatentAutomationApp.py lines
1088-1099): builds `row_data = [app_number] + [details.get(col, '') for
col in selected_columns[1:]]` and APPENDS it to the artifact — no lookup,
no deduplication. -/
def process_application_details (selectedColumns : List String)
    (details : List (String × String)) (app : String)
    (rows : List (List String)) : List (List String) :=
  rows ++ [app :: (selectedColumns.drop 1).map (fun c => dict_getD details c "")]

/-- One structured log entry per `log_message` call site of the retry
orchestrator and of `update_csv_with_email_data` (src/tkinter.py lines
444-507 and 947-951); each constructor stands for one format string. -/
inductive LogMsg where
  | processing (app : String) (attempt : Nat)
  | successMsg (app : String)
  | attemptError (app : String) (attempt : Nat)
  | csvUpdated (app : String)
  | csvError
  | abortedByUser
  | retryAnnounce (n : Nat)
  | permHeader
  | permFailure (app : String)
  | summaryProcessed (n : Nat)
  | summaryFailed (n : Nat)
  deriving Repr, DecidableEq

/-- Whether a log entry names the given record id in its message. -/
def mentions_app : LogMsg → String → Bool
  | .processing a _, app => a == app
  | .successMsg a, app => a == app
  | .attemptError a _, app => a == app
  | .csvUpdated a, app => a == app
  | .permFailure a, app => a == app
  | _, _ => false

/-- Python `set.add` under the insertion-order refinement. -/
def insert_app (l : List String) (a : String) : List String :=
  if a ∈ l then l else l ++ [a]

/-- Mutable run state threaded through a pass: the store, the
`processed_numbers` set, the number of fetches performed so far (the
clock against which the cancellation flag is sampled), and the log. -/
structure RunState where
  csv : CsvState
  processed : List String
  time : Nat
  log : List LogMsg
  deriving Repr, DecidableEq

/-- Result of one pass of the inner `for app_number in current_applications`
loop (src/tkinter.py lines 450-482). -/
structure PassOut where
  state : RunState
  curFailed : List String
  aborted : Bool
  deriving Repr, DecidableEq

/-- One pass over the working set (src/tkinter.py lines 450-482): skip
records already processed, poll the cancellation flag before each fetch,
fetch (`get_application_details`, which either returns details or raises),
store via `update_csv_with_email_data` (which never raises), and mark the
record processed; a failed fetch is caught, logged and added to
`current_failed_applications`. -/
def run_pass (fetch : String → Nat → Option DetailsData) (stop : Nat → Bool)
    (tableHeaders : List String) (email : String) (attempt : Nat) :
    List String → RunState → List String → PassOut
  | [], s, curFailed => ⟨s, curFailed, false⟩
  | app :: rest, s, curFailed =>
    if app ∈ s.processed then
      run_pass fetch stop tableHeaders email attempt rest s curFailed
    else if stop s.time then
      ⟨{ s with log := s.log ++ [.abortedByUser] }, curFailed, true⟩
    else
      match fetch app attempt with
      | some dd =>
        let upd := update_csv_with_email_data tableHeaders s.csv email app dd
        let csvLog := if upd.2 then [LogMsg.csvError] else [LogMsg.csvUpdated app]
        run_pass fetch stop tableHeaders email attempt rest
          { csv := upd.1
            processed := insert_app s.processed app
            time := s.time + 1
            log := s.log ++ [.processing app attempt] ++ csvLog ++ [.successMsg app] }
          curFailed
      | none =>
        run_pass fetch stop tableHeaders email attempt rest
          { s with
            time := s.time + 1
            log := s.log ++ [.processing app attempt, .attemptError app attempt] }
          (insert_app curFailed app)

/-- Final outcome of a run of the orchestrator. `permFailed` is the set
individually logged as permanent failures on the final pass; `failedVar`
is the `failed_applications` variable used by the closing summary;
`passTrace` records each executed pass as (working set, failed set). -/
structure RunResult where
  csv : CsvState
  processed : List String
  permFailed : List String
  failedVar : List String
  aborted : Bool
  time : Nat
  log : List LogMsg
  passTrace : List (List String × List String)
  deriving Repr, DecidableEq

/-- The closing summary (src/tkinter.py lines 503-507): always log the
processed count; log the failed count only when `failed_applications` is
non-empty. -/
def finish_run (csv : CsvState) (processed permFailed failedVar : List String)
    (time : Nat) (log : List LogMsg)
    (trace : List (List String × List String)) : RunResult :=
  let log1 := log ++ [.summaryProcessed processed.length]
  let log2 := if failedVar.isEmpty then log1 else log1 ++ [.summaryFailed failedVar.length]
  ⟨csv, processed, permFailed, failedVar, false, time, log2, trace⟩

/-- `max_retries = 2` (src/tkinter.py line 440). -/
def max_retries : Nat := 2

/-- The retry loop `for attempt in range(max_retries + 1)`
(src/tkinter.py lines 444-507).  `remaining` counts iterations left
(`remaining = max_retries + 1 - attempt`); on a non-final attempt the
failed set becomes the next working set, with an early break when it is
empty; on the final attempt the remaining failures are logged as
permanent; an observed cancellation returns at once, skipping the
summary. -/
def loop_attempts (fetch : String → Nat → Option DetailsData) (stop : Nat → Bool)
    (tableHeaders : List String) (email : String) :
    Nat → Nat → List String → List String → RunState →
    List (List String × List String) → RunResult
  | 0, _, _, failedVar, s, trace =>
    finish_run s.csv s.processed [] failedVar s.time s.log trace
  | r + 1, attempt, apps, failedVar, s, trace =>
    let p := run_pass fetch stop tableHeaders email attempt apps s []
    let trace' := trace ++ [(apps, p.curFailed)]
    if p.aborted then
      ⟨p.state.csv, p.state.processed, [], failedVar, true, p.state.time,
        p.state.log, trace'⟩
    else if r == 0 then
      let logP :=
        if p.curFailed.isEmpty then p.state.log
        else p.state.log ++ [.permHeader] ++ p.curFailed.map .permFailure
      finish_run p.state.csv p.state.processed p.curFailed failedVar
        p.state.time logP trace'
    else
      if p.curFailed.isEmpty then
        finish_run p.state.csv p.state.processed [] p.curFailed
          p.state.time p.state.log trace'
      else
        loop_attempts fetch stop tableHeaders email r (attempt + 1)
          p.curFailed p.curFailed
          { p.state with log := p.state.log ++ [.retryAnnounce p.curFailed.length] }
          trace'

/-- `process_email_applications` (src/tkinter.py lines 433-512); the
retry/outcome structure is identical to `process_applications`
(src/PatentAutomationApp.py lines 981-1053). -/
def process_email_applications (fetch : String → Nat → Option DetailsData)
    (stop : Nat → Bool) (tableHeaders : List String) (email : String)
    (csv : CsvState) (apps : List String) : RunResult :=
  loop_attempts fetch stop tableHeaders email (max_retries + 1) 0 apps []
    ⟨csv, [], 0, []⟩ []

/-- The append-if-absent loop shared by `update_headers`
(src/tkinter.py lines 872-886) and the `ad_headers` growth in
`update_csv_with_specific_row` (lines 1823-1829): a name not already
known is appended at the end; known names are never touched. -/
def ensure_headers (known : List String) (cand : List String) : List String :=
  cand.foldl (fun acc h => if h ∈ acc then acc else acc ++ [h]) known

/-- `update_headers` (src/tkinter.py lines 872-886): grow the basic and
the application-detail header registries independently. -/
def update_headers (tableHeaders adHeaders basic ad : List String) :
    List String × List String :=
  (ensure_headers tableHeaders basic, ensure_headers adHeaders ad)

/-- Python `str.strip()`: drop whitespace from both ends (structural, so
that concrete instances evaluate in the kernel). -/
def py_strip (s : String) : String :=
  ⟨((s.toList.dropWhile Char.isWhitespace).reverse.dropWhile Char.isWhitespace).reverse⟩

/-- Replace the leftmost occurrence of `pat` repeatedly, scanning left to
right (the recursion of Python `str.replace` for a non-empty pattern);
`fuel` starts at the length of the subject and bounds the recursion. -/
def py_replace_go (pat rep : List Char) : Nat → List Char → List Char
  | 0, s => s
  | _ + 1, [] => []
  | fuel + 1, c :: cs =>
    if pat.isPrefixOf (c :: cs) then
      rep ++ py_replace_go pat rep fuel ((c :: cs).drop pat.length)
    else c :: py_replace_go pat rep fuel cs

/-- Python `s.replace(pat, rep)`.  The empty-pattern case is never
exercised by the code (its pattern is the literal `App_Details_Tab_`). -/
def py_replace (s pat rep : String) : String :=
  if pat.toList.isEmpty then s
  else ⟨py_replace_go pat.toList rep.toList s.toList.length s.toList⟩

/-- Python `s.startswith(pre)`. -/
def py_startswith (s pre : String) : Bool :=
  pre.toList.isPrefixOf s.toList

/-- Python `s.endswith(suf)`. -/
def py_endswith (s suf : String) : Bool :=
  suf.toList.isSuffixOf s.toList

/-- Occurrence scan behind Python `needle in hay`. -/
def py_in_go (pat : List Char) : List Char → Bool
  | [] => pat.isEmpty
  | c :: cs => pat.isPrefixOf (c :: cs) || py_in_go pat cs

/-- Python `needle in hay` on strings (substring test). -/
def py_in (needle hay : String) : Bool :=
  py_in_go needle.toList hay.toList

/-- `create_unique_header` (src/tkinter.py lines 1811-1814). -/
def create_unique_header (h : String) : String :=
  py_strip (py_replace h "App_Details_Tab_" "") ++ "_AD"

/-- Index of a header name in the header list, later occurrences winning —
the Python dict comprehension `{h: i for i, h in enumerate(all_headers)}`. -/
def header_index (hs : List String) (h : String) : Option Nat :=
  match hs.reverse.findIdx? (fun x => x == h) with
  | some j => some (hs.length - 1 - j)
  | none => none

/-- `while len(target_row) < len(all_headers): target_row.append('')`. -/
def pad_row (r : List String) (n : Nat) : List String :=
  r ++ List.replicate (n - r.length) ""

/-- `update_csv_with_specific_row` (src/tkinter.py lines 1791-1886),
store-and-registry effect: recompute `all_headers` from the CURRENT
selections, grow the `ad_headers` registry, find or create the target row
(matching on cell 0 only), pad only the target row, REPLACE the header
row wholesale with `all_headers`, and assign the selected detail values
into the target row.  Returns (artifact rows including header row, grown
`ad_headers` registry). -/
def update_csv_with_specific_row (tableHeaders selectedBasic adHeaders selectedAd : List String)
    (existing : List (List String)) (app : String)
    (h1 h3 d1 d3 : List String) : List (List String) × List String :=
  let base := "Application Number" ::
    tableHeaders.filter (fun c => c != "Application Number" && c ∈ selectedBasic)
  let uniq1 := h1.map create_unique_header
  let uniq3 := h3.map create_unique_header
  let adHeaders' := ensure_headers adHeaders (uniq1 ++ uniq3)
  let filtered1 := uniq1.filter (fun h => h ∈ selectedAd)
  let filtered3 := uniq3.filter (fun h => h ∈ selectedAd)
  let fd1 := ((uniq1.zip d1).filter (fun p => p.1 ∈ selectedAd)).map (fun p => p.2)
  let fd3 := ((uniq3.zip d3).filter (fun p => p.1 ∈ selectedAd)).map (fun p => p.2)
  let allHeaders := base ++ filtered1 ++ filtered3
  let tIdx := (existing.drop 1).findIdx? (fun r => !r.isEmpty && r.headD "" == app)
  let target0 :=
    match tIdx with
    | some i => (existing.drop 1).getD i []
    | none => app :: List.replicate (allHeaders.length - 1) ""
  let padded := pad_row target0 allHeaders.length
  let finalRow :=
    ((filtered1.zip fd1) ++ (filtered3.zip fd3)).foldl
      (fun row p =>
        match header_index allHeaders p.1 with
        | some i => row.set i p.2
        | none => row)
      padded
  let rowsOut :=
    match tIdx with
    | some i => (existing.set (i + 1) finalRow).set 0 allHeaders
    | none => (existing ++ [finalRow]).set 0 allHeaders
  (rowsOut, adHeaders')

/-- The `if/elif` operator chain of `generate_filtered_data`
(src/tkinter.py lines 980-989), reporting whether `include_row` survives
this filter.  `value` is the already-stripped configured value; note that
the BLANK branch compares the RAW cell with the empty string and that an
operator matching no branch (including `--` and typos) leaves
`include_row` untouched. -/
def filter_keeps (op value cell : String) : Bool :=
  if op == "IS" then cell == value
  else if op == "BLANK" then cell == ""
  else if op == "CONTAINS" then py_in value cell
  else if op == "STARTS WITH" then py_startswith cell value
  else if op == "ENDS WITH" then py_endswith cell value
  else true

/-- The filter loop of `generate_filtered_data` (src/tkinter.py lines
974-992): iterate `filter_settings.items()` as (header, operator, value)
triples, strip the configured value, read the cell with default `""`,
and break on the first failing predicate. -/
def apply_filters : List (String × String × String) → List (String × String) → Bool
  | [], _ => true
  | (h, op, value) :: rest, row =>
    if filter_keeps op (py_strip value) (dict_getD row h "") then apply_filters rest row
    else false

/-- Row selection of `generate_filtered_data` (src/tkinter.py lines
972-995): keep exactly the rows on which every filter let `include_row`
survive. -/
def generate_filtered_data (filters : List (String × String × String))
    (rows : List (List (String × String))) : List (List (String × String)) :=
  rows.filter (fun r => apply_filters filters r)

/-- Per-filter semantics as claim C6 states it (trimmed cell for BLANK,
the configured value used as given); written from the claim's words, to
be compared against `filter_keeps`. -/
def claimed_filter_sem (op value cell : String) : Bool :=
  if op == "IS" then cell == value
  else if op == "BLANK" then py_strip cell == ""
  else if op == "CONTAINS" then py_in value cell
  else if op == "STARTS WITH" then py_startswith cell value
  else if op == "ENDS WITH" then py_endswith cell value
  else true

/-- The semantics one filter actually imposes on a row in
`generate_filtered_data`: the configured value is stripped first, the
cell of an absent column reads as the empty string. -/
def filter_sem (f : String × String × String) (row : List (String × String)) : Bool :=
  filter_keeps f.2.1 (py_strip f.2.2) (dict_getD row f.1 "")

/-! ## Helper lemmas about the upsert core -/

theorem apply_updates_go_length (rowData : List (String × String)) :
    ∀ (hs : List String) (i : Nat) (row row' : List String),
      apply_updates_go rowData hs i row = .ok row' → row'.length = row.length := by
  intro hs
  induction hs with
  | nil => intro i row row' h; simp [apply_updates_go] at h; simp [h]
  | cons h hs ih =>
    intro i row row' hgo
    simp only [apply_updates_go] at hgo
    cases hget : dict_get rowData h with
    | none => rw [hget] at hgo; exact ih (i + 1) row row' hgo
    | some v =>
      rw [hget] at hgo
      by_cases hlt : i < row.length
      · simp only [hlt, if_true] at hgo
        have := ih (i + 1) (row.set i v) row' hgo
        simpa using this
      · simp [hlt] at hgo

theorem apply_updates_go_frame (rowData : List (String × String)) :
    ∀ (hs : List String) (i : Nat) (row row' : List String),
      apply_updates_go rowData hs i row = .ok row' →
      ∀ k : Nat,
        (∀ j h, hs[j]? = some h → dict_has rowData h = true → i + j ≠ k) →
        row'[k]? = row[k]? := by
  intro hs
  induction hs with
  | nil => intro i row row' h k _; simp [apply_updates_go] at h; simp [h]
  | cons h hs ih =>
    intro i row row' hgo k hcond
    simp only [apply_updates_go] at hgo
    cases hget : dict_get rowData h with
    | none =>
      rw [hget] at hgo
      refine ih (i + 1) row row' hgo k ?_
      intro j h' hj hhas
      have := hcond (j + 1) h' (by simpa using hj) hhas
      omega
    | some v =>
      rw [hget] at hgo
      by_cases hlt : i < row.length
      · simp only [hlt, if_true] at hgo
        have hik : i ≠ k := by
          have := hcond 0 h (by simp) (by simp [dict_has, hget])
          omega
        have hrec := ih (i + 1) (row.set i v) row' hgo k ?_
        · rw [hrec, List.getElem?_set_ne hik]
        · intro j h' hj hhas
          have := hcond (j + 1) h' (by simpa using hj) hhas
          omega
      · simp [hlt] at hgo

theorem apply_updates_go_lo (rowData : List (String × String)) :
    ∀ (hs : List String) (i : Nat) (row row' : List String),
      apply_updates_go rowData hs i row = .ok row' →
      ∀ k : Nat, k < i → row'[k]? = row[k]? := by
  intro hs
  induction hs with
  | nil => intro i row row' h k _; simp [apply_updates_go] at h; simp [h]
  | cons h hs ih =>
    intro i row row' hgo k hk
    simp only [apply_updates_go] at hgo
    cases hget : dict_get rowData h with
    | none => rw [hget] at hgo; exact ih (i + 1) row row' hgo k (by omega)
    | some v =>
      rw [hget] at hgo
      by_cases hlt : i < row.length
      · simp only [hlt, if_true] at hgo
        have hrec := ih (i + 1) (row.set i v) row' hgo k (by omega)
        rw [hrec, List.getElem?_set_ne (by omega : i ≠ k)]
      · simp [hlt] at hgo

theorem find_row_ok_some (email app : String) :
    ∀ (rows : List (List String)) (i : Nat),
      find_row rows email app = .ok (some i) →
      ∃ t, rows[i]? = some (email :: app :: t) := by
  intro rows
  induction rows with
  | nil => intro i h; simp [find_row] at h
  | cons row rest ih =>
    intro i h
    match row with
    | [] => simp [find_row] at h
    | [c0] =>
      simp only [find_row] at h
      by_cases h0 : c0 == email
      · simp [h0] at h
      · rw [if_neg h0] at h
        cases hrec : find_row rest email app with
        | error e => rw [hrec] at h; simp [Except.map] at h
        | ok o =>
          rw [hrec] at h
          cases o with
          | none => simp [Except.map] at h
          | some j =>
            simp [Except.map] at h
            obtain ⟨t, ht⟩ := ih j hrec
            exact ⟨t, by simp [← h, ht]⟩
    | c0 :: c1 :: t0 =>
      simp only [find_row] at h
      by_cases h0 : c0 == email
      · rw [if_pos h0] at h
        by_cases h1 : c1 == app
        · rw [if_pos h1] at h
          simp at h
          subst h
          refine ⟨t0, ?_⟩
          simp [(by simpa using h0 : c0 = email), (by simpa using h1 : c1 = app)]
        · rw [if_neg h1] at h
          cases hrec : find_row rest email app with
          | error e => rw [hrec] at h; simp [Except.map] at h
          | ok o =>
            rw [hrec] at h
            cases o with
            | none => simp [Except.map] at h
            | some j =>
              simp [Except.map] at h
              obtain ⟨t, ht⟩ := ih j hrec
              refine ⟨t, ?_⟩
              simp [← h, ht]
      · rw [if_neg h0] at h
        cases hrec : find_row rest email app with
        | error e => rw [hrec] at h; simp [Except.map] at h
        | ok o =>
          rw [hrec] at h
          cases o with
          | none => simp [Except.map] at h
          | some j =>
            simp [Except.map] at h
            obtain ⟨t, ht⟩ := ih j hrec
            exact ⟨t, by simp [← h, ht]⟩

theorem find_row_ok_none (email app : String) :
    ∀ rows : List (List String),
      find_row rows email app = .ok none →
      ∀ r ∈ rows, row_key r ≠ (email, app) := by
  intro rows
  induction rows with
  | nil => intro _ r hr; simp at hr
  | cons row rest ih =>
    intro h r hr
    match row, hr with
    | [], _ => simp [find_row] at h
    | [c0], hr =>
      simp only [find_row] at h
      by_cases h0 : c0 == email
      · simp [h0] at h
      · rw [if_neg h0] at h
        cases hrec : find_row rest email app with
        | error e => rw [hrec] at h; simp [Except.map] at h
        | ok o =>
          rw [hrec] at h
          cases o with
          | some j => simp [Except.map] at h
          | none =>
            rcases List.mem_cons.mp hr with hr1 | hr2
            · subst hr1
              intro hk
              simp only [row_key] at hk
              simp at hk
              have h0n : c0 ≠ email := by simpa using h0
              exact h0n hk.1
            · exact ih hrec r hr2
    | c0 :: c1 :: t0, hr =>
      simp only [find_row] at h
      by_cases h0 : c0 == email
      · rw [if_pos h0] at h
        by_cases h1 : c1 == app
        · simp [h1] at h
        · rw [if_neg h1] at h
          cases hrec : find_row rest email app with
          | error e => rw [hrec] at h; simp [Except.map] at h
          | ok o =>
            rw [hrec] at h
            cases o with
            | some j => simp [Except.map] at h
            | none =>
              rcases List.mem_cons.mp hr with hr1 | hr2
              · subst hr1
                intro hk
                simp only [row_key] at hk
                simp at hk
                have h1n : c1 ≠ app := by simpa using h1
                exact h1n hk.2
              · exact ih hrec r hr2
      · rw [if_neg h0] at h
        cases hrec : find_row rest email app with
        | error e => rw [hrec] at h; simp [Except.map] at h
        | ok o =>
          rw [hrec] at h
          cases o with
          | some j => simp [Except.map] at h
          | none =>
            rcases List.mem_cons.mp hr with hr1 | hr2
            · subst hr1
              intro hk
              simp only [row_key] at hk
              simp at hk
              have h0n : c0 ≠ email := by simpa using h0
              exact h0n hk.1
            · exact ih hrec r hr2

theorem uniq_keys_set :
    ∀ (rows : List (List String)) (i : Nat) (r r' : List String),
      uniq_keys rows = true → rows[i]? = some r → row_key r' = row_key r →
      uniq_keys (rows.set i r') = true := by
  intro rows
  induction rows with
  | nil => intro i r r' _ hget _; simp at hget
  | cons x xs ih =>
    intro i r r' hu hget hkey
    simp only [uniq_keys, Bool.and_eq_true, List.all_eq_true] at hu
    cases i with
    | zero =>
      simp at hget
      subst hget
      simp only [List.set_cons_zero, uniq_keys, Bool.and_eq_true, List.all_eq_true]
      refine ⟨fun s hs => ?_, hu.2⟩
      rw [hkey] at *
      simpa [bne_iff_ne, hkey] using hu.1 s hs
    | succ j =>
      simp only [List.getElem?_cons_succ] at hget
      simp only [List.set_cons_succ, uniq_keys, Bool.and_eq_true, List.all_eq_true]
      constructor
      · intro s hs
        rcases List.mem_or_eq_of_mem_set hs with hmem | heq
        · exact hu.1 s hmem
        · subst heq
          have hrmem : r ∈ xs := List.getElem?_mem hget
          have := hu.1 r hrmem
          simpa [bne_iff_ne, hkey] using (by simpa [bne_iff_ne] using this : row_key r ≠ row_key x)
      · exact ih j r r' hu.2 hget hkey

theorem uniq_keys_append :
    ∀ (rows : List (List String)) (nr : List String),
      uniq_keys rows = true →
      (∀ r ∈ rows, row_key r ≠ row_key nr) →
      uniq_keys (rows ++ [nr]) = true := by
  intro rows
  induction rows with
  | nil => intro nr _ _; simp [uniq_keys]
  | cons x xs ih =>
    intro nr hu hne
    simp only [uniq_keys, Bool.and_eq_true, List.all_eq_true] at hu
    simp only [List.cons_append, uniq_keys, Bool.and_eq_true, List.all_eq_true]
    constructor
    · intro s hs
      rcases List.mem_append.mp hs with hmem | hmem
      · exact hu.1 s hmem
      · simp at hmem
        subst hmem
        have := hne x (by simp)
        simpa [bne_iff_ne] using Ne.symm this
    · exact ih nr hu.2 fun r hr => hne r (by simp [hr])

theorem take2_shape {l : List String} {a b : String} (h : l.take 2 = [a, b]) :
    ∃ t, l = a :: b :: t := by
  match l with
  | [] => simp at h
  | [x] => simp at h
  | x :: y :: t => simp at h; exact ⟨t, by simp [h.1, h.2]⟩

theorem upsert_email_data_headers (st : CsvState) (email app : String)
    (rowData : List (String × String)) :
    (upsert_email_data st email app rowData).headers = st.headers := by
  cases hfind : find_row st.rows email app with
  | error e => simp [upsert_email_data, upsert_go, hfind]
  | ok o =>
    cases o with
    | none => simp [upsert_email_data, upsert_go, hfind]
    | some i =>
      cases hupd : apply_updates_go rowData st.headers 0 (st.rows.getD i []) with
      | error e => simp only [upsert_email_data, upsert_go, hfind, hupd]
      | ok r => simp only [upsert_email_data, upsert_go, hfind, hupd]

theorem new_row_key (t : List String) (rowData : List (String × String))
    (email app : String)
    (hE : dict_get rowData "Email" = some email)
    (hA : dict_get rowData "Application Number" = some app) :
    row_key (new_row ("Email" :: "Application Number" :: t) rowData) = (email, app) := by
  simp [new_row, row_key, dict_getD, hE, hA]

theorem apply_updates_key (rowData : List (String × String)) (hs : List String)
    (email app : String)
    (hE : dict_get rowData "Email" = some email)
    (hA : dict_get rowData "Application Number" = some app)
    (t row' : List String)
    (h : apply_updates_go rowData ("Email" :: "Application Number" :: hs) 0
          (email :: app :: t) = .ok row') :
    row_key row' = (email, app) := by
  simp only [apply_updates_go, hE, hA] at h
  simp only [List.set_cons_zero, List.set_cons_succ, List.length_cons] at h
  have h0lt : 0 < t.length + 1 + 1 := by omega
  rw [if_pos h0lt] at h
  have h1lt : 0 + 1 < t.length + 1 + 1 := by omega
  rw [if_pos h1lt] at h
  have h0 := apply_updates_go_lo rowData hs (0 + 1 + 1) (email :: app :: t) row' h 0 (by omega)
  have h1 := apply_updates_go_lo rowData hs (0 + 1 + 1) (email :: app :: t) row' h 1 (by omega)
  simp at h0 h1
  simp [row_key, List.getD_eq_getElem?_getD, h0, h1]

/-- Upsert through `update_csv_with_email_data` preserves composite-key
uniqueness, provided the artifact's header row begins with the two key
columns and the prepared field map carries the upsert's own identity in
them. -/
theorem upsert_preserves_uniq (st : CsvState) (email app : String)
    (rowData : List (String × String))
    (hhead : st.headers.take 2 = ["Email", "Application Number"])
    (hE : dict_get rowData "Email" = some email)
    (hA : dict_get rowData "Application Number" = some app)
    (hu : uniq_keys st.rows = true) :
    uniq_keys (upsert_email_data st email app rowData).rows = true := by
  obtain ⟨ht, hshape⟩ := take2_shape hhead
  cases hfind : find_row st.rows email app with
  | error e => simp only [upsert_email_data, upsert_go, hfind]; exact hu
  | ok o =>
    cases o with
    | none =>
      simp only [upsert_email_data, upsert_go, hfind]
      refine uniq_keys_append st.rows _ hu ?_
      intro r hr
      have hkey : row_key (new_row st.headers rowData) = (email, app) := by
        rw [hshape]; exact new_row_key ht rowData email app hE hA
      rw [hkey]
      exact find_row_ok_none email app st.rows hfind r hr
    | some i =>
      obtain ⟨t, hget⟩ := find_row_ok_some email app st.rows i hfind
      have hgetD : st.rows.getD i [] = email :: app :: t := by
        rw [List.getD_eq_getElem?_getD, hget]; rfl
      cases hupd : apply_updates_go rowData st.headers 0 (st.rows.getD i []) with
      | error e => simp only [upsert_email_data, upsert_go, hfind, hupd]; exact hu
      | ok r' =>
        simp only [upsert_email_data, upsert_go, hfind, hupd]
        have hkey' : row_key r' = (email, app) := by
          rw [hgetD, hshape] at hupd
          exact apply_updates_key rowData ht email app hE hA t r' hupd
        refine uniq_keys_set st.rows i (email :: app :: t) r' hu hget ?_
        rw [hkey']
        simp [row_key]

/-! ## Claim C1: composite-key uniqueness -/

/-- C1 (amended): after any sequence of upserts through
`update_csv_with_email_data`, at most one row exists per composite key —
PROVIDED the artifact's header row begins with the two key columns
`Email`, `Application Number` and each prepared field map carries the
upsert identity under those two names (which the code only guarantees
when the scraped basic headers do not shadow them and the header order
survived `initialize_csv_file`'s `list(set(...))`).  The
PatentAutomationApp.py detail writer is NOT covered: it appends
unconditionally (see the counterexample). -/
theorem c1_composite_key_uniqueness (st : CsvState)
    (cmds : List (String × String × List (String × String)))
    (hhead : st.headers.take 2 = ["Email", "Application Number"])
    (hcmds : ∀ c ∈ cmds, dict_get c.2.2 "Email" = some c.1 ∧
      dict_get c.2.2 "Application Number" = some c.2.1)
    (hu : uniq_keys st.rows = true) :
    uniq_keys (run_upserts st cmds).rows = true := by
  induction cmds generalizing st with
  | nil => simpa [run_upserts] using hu
  | cons c cs ih =>
    simp only [run_upserts, List.foldl_cons]
    have hc := hcmds c (by simp)
    have hstep := upsert_preserves_uniq st c.1 c.2.1 c.2.2 hhead hc.1 hc.2 hu
    have hhead' : (upsert_email_data st c.1 c.2.1 c.2.2).headers.take 2 =
        ["Email", "Application Number"] := by
      rw [upsert_email_data_headers]; exact hhead
    have := ih (upsert_email_data st c.1 c.2.1 c.2.2) hhead'
      (fun c' hc' => hcmds c' (by simp [hc'])) hstep
    simpa [run_upserts] using this

/-- C1 counterexample: `process_application_details`
(src/PatentAutomationApp.py lines 1092-1099) appends a detail row without
any lookup, so writing the same application number twice leaves two rows
with the same composite key — the claim's "no operation ever produces two
rows with the same composite key" is false for the code as cited. -/
theorem c1_counterexample :
    process_application_details ["Application Number", "Status"]
        [("Status", "New")] "123"
        (process_application_details ["Application Number", "Status"]
          [("Status", "New")] "123" []) =
      [["123", "New"], ["123", "New"]] ∧
    row_key ["123", "New"] = row_key ["123", "New"] ∧
    uniq_keys [["123", "New"], ["123", "New"]] = false := by decide

/-- C1 witness: the amended theorem applied to a concrete store and a
concrete command sequence that upserts the same identity twice. -/
theorem c1_witness :
    ((["Email", "Application Number", "Status"] : List String).take 2 =
      ["Email", "Application Number"]) ∧
    uniq_keys (run_upserts
      ⟨["Email", "Application Number", "Status"], []⟩
      [("a@b", "123", [("Email", "a@b"), ("Application Number", "123"), ("Status", "New")]),
       ("a@b", "123", [("Email", "a@b"), ("Application Number", "123"), ("Status", "Done")]),
       ("c@d", "9", [("Email", "c@d"), ("Application Number", "9")])]).rows = true :=
  ⟨by decide,
    c1_composite_key_uniqueness
      ⟨["Email", "Application Number", "Status"], []⟩
      [("a@b", "123", [("Email", "a@b"), ("Application Number", "123"), ("Status", "New")]),
       ("a@b", "123", [("Email", "a@b"), ("Application Number", "123"), ("Status", "Done")]),
       ("c@d", "9", [("Email", "c@d"), ("Application Number", "9")])]
      (by decide) (by decide) (by decide)⟩

/-! ## Claim C2: upsert non-destructiveness -/

/-- C2 (confirmed): upserting a field map that omits column `C` never
changes an existing row's stored value in any position carrying header
`C`; only columns named in the field map are overwritten (and a swallowed
internal error leaves every row untouched). -/
theorem c2_upsert_non_destructive (st : CsvState) (email app C : String)
    (rowData : List (String × String))
    (hC : dict_has rowData C = false) :
    ∀ (j k : Nat) (r r' : List String),
      st.rows[j]? = some r →
      (upsert_email_data st email app rowData).rows[j]? = some r' →
      st.headers[k]? = some C →
      r'[k]? = r[k]? := by
  intro j k r r' hr hr' hk
  cases hfind : find_row st.rows email app with
  | error e =>
    simp only [upsert_email_data, upsert_go, hfind] at hr'
    rw [hr] at hr'
    injection hr' with h
    rw [h]
  | ok o =>
    cases o with
    | none =>
      simp only [upsert_email_data, upsert_go, hfind] at hr'
      have hjlt : j < st.rows.length := (List.getElem?_eq_some.mp hr).1
      rw [List.getElem?_append] at hr'
      rw [if_pos hjlt, hr] at hr'
      injection hr' with h
      rw [h]
    | some i =>
      cases hupd : apply_updates_go rowData st.headers 0 (st.rows.getD i []) with
      | error e =>
        simp only [upsert_email_data, upsert_go, hfind, hupd] at hr'
        rw [hr] at hr'
        injection hr' with h
        rw [h]
      | ok rr =>
        simp only [upsert_email_data, upsert_go, hfind, hupd] at hr'
        by_cases hij : i = j
        · subst hij
          have hilt : i < st.rows.length := (List.getElem?_eq_some.mp hr).1
          rw [List.getElem?_set_self'] at hr'
          rw [hr] at hr'
          simp at hr'
          subst hr' 
          have hgetD : st.rows.getD i [] = r := by
            rw [List.getD_eq_getElem?_getD, hr]; rfl
          rw [hgetD] at hupd
          refine apply_updates_go_frame rowData st.headers 0 r rr hupd k ?_
          intro j' h' hj' hhas
          intro hcontra
          have : j' = k := by omega
          subst this
          rw [hk] at hj'
          injection hj' with hCeq
          rw [← hCeq] at hhas
          rw [hhas] at hC
          exact Bool.noConfusion hC
        · rw [List.getElem?_set_ne hij] at hr'
          rw [hr] at hr'
          injection hr' with h
          rw [h]

/-- C2 witness: the non-destructiveness theorem applied to a concrete
store, with a field map that rewrites `Status` but omits `X`; the cell
under `X` keeps its value while `Status` changes. -/
theorem c2_witness :
    dict_has [("Email", "e"), ("Application Number", "1"), ("Status", "Done")] "X" = false ∧
    (["e", "1", "Done", "keep"] : List String)[3]? =
      (["e", "1", "old", "keep"] : List String)[3]? :=
  ⟨by decide,
    c2_upsert_non_destructive
      ⟨["Email", "Application Number", "Status", "X"], [["e", "1", "old", "keep"]]⟩
      "e" "1" "X"
      [("Email", "e"), ("Application Number", "1"), ("Status", "Done")]
      (by decide) 0 3 ["e", "1", "old", "keep"] ["e", "1", "Done", "keep"]
      (by decide) (by decide) (by decide)⟩

/-! ## Claim C3: schema monotonicity -/

theorem ensure_headers_extends (known cand : List String) :
    known <+: ensure_headers known cand := by
  induction cand generalizing known with
  | nil => exact List.prefix_refl known
  | cons c cs ih =>
    have hstep : ensure_headers known (c :: cs) =
        ensure_headers (if c ∈ known then known else known ++ [c]) cs := rfl
    rw [hstep]
    by_cases hc : c ∈ known
    · rw [if_pos hc]; exact ih known
    · rw [if_neg hc]
      exact List.IsPrefix.trans (List.prefix_append known [c]) (ih (known ++ [c]))

theorem ensure_headers_mem (known cand : List String) :
    ∀ h ∈ cand, h ∈ ensure_headers known cand := by
  induction cand generalizing known with
  | nil => intro h hh; simp at hh
  | cons c cs ih =>
    intro h hh
    have hstep : ensure_headers known (c :: cs) =
        ensure_headers (if c ∈ known then known else known ++ [c]) cs := rfl
    rw [hstep]
    rcases List.mem_cons.mp hh with h1 | h2
    · subst h1
      have hmem : h ∈ (if h ∈ known then known else known ++ [h]) := by
        by_cases hc : h ∈ known
        · rw [if_pos hc]; exact hc
        · rw [if_neg hc]; simp
      exact (ensure_headers_extends _ cs).subset hmem
    · exact ih _ h h2

theorem foldl_ensure_headers_extends (calls : List (List String)) :
    ∀ known : List String, known <+: List.foldl ensure_headers known calls := by
  induction calls with
  | nil => intro known; exact List.prefix_refl known
  | cons c cs ih =>
    intro known
    rw [List.foldl_cons]
    exact List.IsPrefix.trans (ensure_headers_extends known c) (ih (ensure_headers known c))

theorem foldl_ensure_headers_mem (calls : List (List String)) :
    ∀ (known l : List String), l ∈ calls → ∀ h ∈ l,
      h ∈ List.foldl ensure_headers known calls := by
  induction calls with
  | nil => intro known l hl; simp at hl
  | cons c cs ih =>
    intro known l hl h hh
    rw [List.foldl_cons]
    rcases List.mem_cons.mp hl with h1 | h2
    · subst h1
      exact (foldl_ensure_headers_extends cs (ensure_headers known l)).subset
        (ensure_headers_mem known l h hh)
    · exact ih (ensure_headers known c) l h2 h hh

/-- C3 (amended): the in-memory header registries are monotone — a
registry is always a PREFIX of the registry after any sequence of
append-if-absent calls (so nothing is ever removed or reordered, new
names are appended at the end, and every submitted name is present
afterwards), and `update_csv_with_specific_row` grows its `ad_headers`
registry the same way.  The CSV header ROW, by contrast, is NOT monotone:
`update_csv_with_specific_row` recomputes it from the current selections
and may drop previously present names (see the counterexample). -/
theorem c3_schema_monotonicity :
    (∀ (known : List String) (calls : List (List String)),
      known <+: List.foldl ensure_headers known calls) ∧
    (∀ (known : List String) (calls : List (List String)) (l : List String),
      l ∈ calls → ∀ h ∈ l, h ∈ List.foldl ensure_headers known calls) ∧
    (∀ (tableHeaders selectedBasic adHeaders selectedAd : List String)
      (existing : List (List String)) (app : String) (h1 h3 d1 d3 : List String),
      adHeaders <+: (update_csv_with_specific_row tableHeaders selectedBasic
        adHeaders selectedAd existing app h1 h3 d1 d3).2) :=
  ⟨fun known calls => foldl_ensure_headers_extends calls known,
   fun known calls l hl h hh => foldl_ensure_headers_mem calls known l hl h hh,
   fun _ _ adHeaders _ _ _ h1 h3 _ _ =>
    ensure_headers_extends adHeaders
      (h1.map create_unique_header ++ h3.map create_unique_header)⟩

/-- C3 counterexample: `update_csv_with_specific_row` rewrites the header
row from the current selections; with no basic or detail columns selected
the previously present name `Foo` is dropped from the schema — the CSV
header row is not a supersequence of its predecessor. -/
theorem c3_counterexample :
    (update_csv_with_specific_row [] [] [] []
        [["Application Number", "Foo"], ["123", "x"]] "123" [] [] [] []).1 =
      [["Application Number"], ["123", "x"]] ∧
    "Foo" ∈ (["Application Number", "Foo"] : List String) ∧
    "Foo" ∉ (["Application Number"] : List String) := by decide

/-- C3 witness: the amended theorem applied to a concrete registry and a
concrete call sequence. -/
theorem c3_witness :
    (["A"] : List String) <+: List.foldl ensure_headers ["A"] [["B", "A"], ["C"]] ∧
    "C" ∈ List.foldl ensure_headers ["A"] [["B", "A"], ["C"]] :=
  ⟨(c3_schema_monotonicity.1 ["A"] [["B", "A"], ["C"]]),
   (c3_schema_monotonicity.2.1 ["A"] [["B", "A"], ["C"]] ["C"] (by decide) "C" (by decide))⟩

/-! ## Claim C4: row-length invariant -/

theorem upsert_email_data_row_length (st : CsvState) (email app : String)
    (rowData : List (String × String))
    (hlen : ∀ r ∈ st.rows, r.length = st.headers.length) :
    ∀ r ∈ (upsert_email_data st email app rowData).rows,
      r.length = st.headers.length := by
  cases hfind : find_row st.rows email app with
  | error e =>
    simp only [upsert_email_data, upsert_go, hfind]
    exact hlen
  | ok o =>
    cases o with
    | none =>
      simp only [upsert_email_data, upsert_go, hfind]
      intro r hr
      rcases List.mem_append.mp hr with hmem | hmem
      · exact hlen r hmem
      · simp at hmem
        subst hmem
        simp [new_row]
    | some i =>
      cases hupd : apply_updates_go rowData st.headers 0 (st.rows.getD i []) with
      | error e =>
        simp only [upsert_email_data, upsert_go, hfind, hupd]
        exact hlen
      | ok rr =>
        simp only [upsert_email_data, upsert_go, hfind, hupd]
        intro r hr
        rcases List.mem_or_eq_of_mem_set hr with hmem | heq
        · exact hlen r hmem
        · subst heq
          obtain ⟨t, hget⟩ := find_row_ok_some email app st.rows i hfind
          have hgetD : st.rows.getD i [] = email :: app :: t := by
            rw [List.getD_eq_getElem?_getD, hget]; rfl
          have hl := apply_updates_go_length rowData st.headers 0 _ r hupd
          rw [hl, hgetD]
          exact hlen (email :: app :: t) (List.getElem?_mem hget)

/-- C4 (amended): `update_csv_with_email_data` (whose header row is never
changed) preserves the row-length invariant across any sequence of
upserts: appended rows are built to header length, in-place updates keep
a row's length, and a swallowed error changes nothing.  The invariant is
NOT maintained by `update_csv_with_specific_row`, which grows the header
row without padding non-target rows (see the counterexample). -/
theorem c4_row_length_invariant (st : CsvState)
    (cmds : List (String × String × List (String × String)))
    (hlen : ∀ r ∈ st.rows, r.length = st.headers.length) :
    ∀ r ∈ (run_upserts st cmds).rows,
      r.length = (run_upserts st cmds).headers.length := by
  induction cmds generalizing st with
  | nil => simpa [run_upserts] using hlen
  | cons c cs ih =>
    simp only [run_upserts, List.foldl_cons]
    have hstep := upsert_email_data_row_length st c.1 c.2.1 c.2.2 hlen
    rw [← upsert_email_data_headers st c.1 c.2.1 c.2.2] at hstep
    have := ih (upsert_email_data st c.1 c.2.1 c.2.2) hstep
    simpa [run_upserts] using this

/-- C4 counterexample: `update_csv_with_specific_row` grows the header
row to two columns but pads only the target row; the untouched row
`["111"]` is left one cell short of the schema. -/
theorem c4_counterexample :
    (update_csv_with_specific_row [] [] ["Bar_AD"] ["Bar_AD"]
        [["Application Number"], ["111"]] "222" ["Bar"] [] ["v"] []).1 =
      [["Application Number", "Bar_AD"], ["111"], ["222", "v"]] ∧
    (["111"] : List String).length ≠
      (["Application Number", "Bar_AD"] : List String).length := by decide

/-- C4 witness: the amended theorem applied to a concrete store and
upsert sequence. -/
theorem c4_witness :
    (∀ r ∈ ([["e", "1"]] : List (List String)), r.length =
      (["Email", "Application Number"] : List String).length) ∧
    (∀ r ∈ (run_upserts ⟨["Email", "Application Number"], [["e", "1"]]⟩
        [("f", "2", [("Email", "f"), ("Application Number", "2")])]).rows,
      r.length = (run_upserts ⟨["Email", "Application Number"], [["e", "1"]]⟩
        [("f", "2", [("Email", "f"), ("Application Number", "2")])]).headers.length) :=
  ⟨by decide,
   c4_row_length_invariant ⟨["Email", "Application Number"], [["e", "1"]]⟩
     [("f", "2", [("Email", "f"), ("Application Number", "2")])] (by decide)⟩

/-! ## Claim C9: fail-closed load of malformed persisted state -/

/-- C9 (amended): no column-count validation exists.  Loading splits any
non-empty artifact into header and rows unchanged; an upsert on ANY store
— malformed rows included — returns normally with the header preserved
and at most one row appended, and when an internal indexing error does
occur it is swallowed, leaving the artifact exactly as it was (logged,
never surfaced to the caller). -/
theorem c9_no_load_validation (st : CsvState) (email app : String)
    (rowData : List (String × String)) :
    (∀ (h : List String) (t : List (List String)),
      read_csv_rows (h :: t) = some (h, t)) ∧
    (upsert_email_data st email app rowData).headers = st.headers ∧
    ((upsert_email_data st email app rowData).rows.length = st.rows.length ∨
     (upsert_email_data st email app rowData).rows.length = st.rows.length + 1) ∧
    (upsert_go st email app rowData = .error () →
      upsert_email_data st email app rowData = st) := by
  refine ⟨fun h t => rfl, upsert_email_data_headers st email app rowData, ?_, ?_⟩
  · cases hfind : find_row st.rows email app with
    | error e => left; simp [upsert_email_data, upsert_go, hfind]
    | ok o =>
      cases o with
      | none => right; simp [upsert_email_data, upsert_go, hfind]
      | some i =>
        cases hupd : apply_updates_go rowData st.headers 0 (st.rows.getD i []) with
        | error e => left; simp only [upsert_email_data, upsert_go, hfind, hupd]
        | ok rr =>
          left
          simp only [upsert_email_data, upsert_go, hfind, hupd]
          exact List.length_set st.rows i rr
  · intro herr
    simp [upsert_email_data, herr]

/-- C9 counterexample: an artifact whose data row has one cell under a
two-column header loads successfully and is then processed: the upsert
completes, appends a row, and carries the malformed row along — loading
is NOT a hard failure and nothing is surfaced. -/
theorem c9_counterexample :
    read_csv_rows [["A", "B"], ["x"]] = some (["A", "B"], [["x"]]) ∧
    upsert_go ⟨["A", "B"], [["x"]]⟩ "e" "1"
        [("Email", "e"), ("Application Number", "1")] =
      .ok ⟨["A", "B"], [["x"], ["", ""]]⟩ ∧
    (["x"] : List String).length ≠ (["A", "B"] : List String).length := by decide

/-- C9 witness: the amended theorem applied to a store whose malformed
(empty) row makes the key lookup raise internally; the error is swallowed
and the artifact is returned unchanged. -/
theorem c9_witness :
    upsert_email_data ⟨["A"], [[]]⟩ "e" "1" [] = ⟨["A"], [[]]⟩ :=
  (c9_no_load_validation ⟨["A"], [[]]⟩ "e" "1" []).2.2.2 (by decide)

/-! ## Claim C6: filter predicate semantics -/

/-- C6 (amended): a row survives `generate_filtered_data`'s filter loop
iff every filter in the set is satisfied under the semantics the code
actually implements (`filter_sem`): the configured value is STRIPPED
before use by every operator, `IS` compares the cell with the stripped
value, `BLANK` tests the RAW (untrimmed) cell against the empty string,
`CONTAINS` / `STARTS WITH` / `ENDS WITH` are substring / prefix / suffix
against the stripped value, a column absent from the row reads as the
empty string, operators matching no branch (including `--`) impose no
constraint, and evaluation short-circuits on the first failing predicate
(the loop returns `false` without consulting later filters). -/
theorem c6_filter_semantics (filters : List (String × String × String))
    (row : List (String × String)) :
    apply_filters filters row = true ↔ ∀ f ∈ filters, filter_sem f row = true := by
  induction filters with
  | nil => simp [apply_filters]
  | cons f rest ih =>
    obtain ⟨h, op, value⟩ := f
    simp only [apply_filters]
    by_cases hk : filter_keeps op (py_strip value) (dict_getD row h "") = true
    · rw [if_pos hk, ih]
      constructor
      · intro hall f' hf'
        rcases List.mem_cons.mp hf' with h1 | h2
        · subst h1; exact hk
        · exact hall f' h2
      · intro hall f' hf'
        exact hall f' (List.mem_cons_of_mem _ hf')
    · rw [if_neg hk]
      constructor
      · intro hfalse; exact absurd hfalse (by simp)
      · intro hall
        exact absurd (hall (h, op, value) (List.mem_cons_self _ _)) hk

/-- C6 counterexample: the cell `" "` is trimmed-empty, so the claim's
BLANK semantics selects the row; the code compares the raw cell with
`""` and excludes it. -/
theorem c6_counterexample :
    py_strip " " = "" ∧
    claimed_filter_sem "BLANK" "" " " = true ∧
    filter_keeps "BLANK" "" " " = false ∧
    generate_filtered_data [("Comments", "BLANK", "")] [[("Comments", " ")]] = [] := by
  decide

/-- C6 witness: the amended equivalence applied to a concrete filter set
and row (the spec's own examples, under the corrected semantics). -/
theorem c6_witness :
    apply_filters [("Status", "IS", "New"), ("Title", "CONTAINS", "Assembly")]
      [("Status", "New"), ("Title", "Widget Assembly")] = true :=
  (c6_filter_semantics
      [("Status", "IS", "New"), ("Title", "CONTAINS", "Assembly")]
      [("Status", "New"), ("Title", "Widget Assembly")]).mpr (by decide)

/-! ## Claim C7: unknown-operator handling -/

/-- C7 (amended): a filter whose operator matches no recognised branch is
a NO-OP, not fail-closed: wherever it sits in the filter list, removing
it does not change which rows pass — unknown operators (and `--`) are
silently ignored (fail-open) and nothing is logged. -/
theorem c7_unknown_operator_ignored (pre post : List (String × String × String))
    (h op value : String) (row : List (String × String))
    (hop : op ≠ "IS" ∧ op ≠ "BLANK" ∧ op ≠ "CONTAINS" ∧
      op ≠ "STARTS WITH" ∧ op ≠ "ENDS WITH") :
    apply_filters (pre ++ (h, op, value) :: post) row =
      apply_filters (pre ++ post) row := by
  induction pre with
  | nil =>
    simp only [List.nil_append, apply_filters]
    have hkeep : filter_keeps op (py_strip value) (dict_getD row h "") = true := by
      simp [filter_keeps, hop.1, hop.2.1, hop.2.2.1, hop.2.2.2.1, hop.2.2.2.2]
    rw [if_pos hkeep]
  | cons f rest ih =>
    obtain ⟨h', op', v'⟩ := f
    simp only [List.cons_append, apply_filters]
    by_cases hk : filter_keeps op' (py_strip v') (dict_getD row h' "") = true
    · rw [if_pos hk, if_pos hk]; exact ih
    · rw [if_neg hk, if_neg hk]

/-- C7 counterexample: a filter with the unrecognised operator `XYZZY`
does not exclude anything — the row is included in the filtered output,
refuting fail-closed. -/
theorem c7_counterexample :
    generate_filtered_data [("Status", "XYZZY", "v")] [[("Status", "hello")]] =
      [[("Status", "hello")]] := by decide

/-- C7 witness: the no-op theorem applied to a concrete filter list with
an unknown operator in the middle. -/
theorem c7_witness :
    apply_filters [("A", "IS", "x"), ("B", "FOO", "y")] [("A", "x")] =
      apply_filters [("A", "IS", "x")] [("A", "x")] :=
  c7_unknown_operator_ignored [("A", "IS", "x")] [] "B" "FOO" "y" [("A", "x")]
    (by decide)

/-! ## Helper lemmas about the retry orchestrator -/

theorem mem_insert_app_iff (l : List String) (a x : String) :
    x ∈ insert_app l a ↔ x = a ∨ x ∈ l := by
  unfold insert_app
  by_cases h : a ∈ l
  · rw [if_pos h]
    constructor
    · intro hx; exact Or.inr hx
    · intro hx; rcases hx with h1 | h2
      · subst h1; exact h
      · exact h2
  · rw [if_neg h]
    simp [or_comm]

theorem run_pass_processed_mono
    (fetch : String → Nat → Option DetailsData) (stop : Nat → Bool)
    (th : List String) (email : String) (attempt : Nat) :
    ∀ (apps : List String) (s : RunState) (cf : List String),
      ∀ x ∈ s.processed,
        x ∈ (run_pass fetch stop th email attempt apps s cf).state.processed := by
  intro apps
  induction apps with
  | nil => intro s cf x hx; simpa [run_pass] using hx
  | cons app rest ih =>
    intro s cf x hx
    simp only [run_pass]
    by_cases hmem : app ∈ s.processed
    · rw [if_pos hmem]; exact ih s cf x hx
    · rw [if_neg hmem]
      by_cases hstop : stop s.time
      · simp only [hstop, if_true]; simpa using hx
      · simp only [hstop, Bool.false_eq_true, if_false]
        cases hf : fetch app attempt with
        | some dd =>
          exact ih _ _ x (by rw [mem_insert_app_iff]; exact Or.inr hx)
        | none => exact ih _ _ x hx

theorem run_pass_processed_sub
    (fetch : String → Nat → Option DetailsData) (stop : Nat → Bool)
    (th : List String) (email : String) (attempt : Nat) :
    ∀ (apps : List String) (s : RunState) (cf : List String),
      ∀ x ∈ (run_pass fetch stop th email attempt apps s cf).state.processed,
        x ∈ s.processed ∨ (x ∈ apps ∧ (fetch x attempt).isSome = true) := by
  intro apps
  induction apps with
  | nil => intro s cf x hx; exact Or.inl (by simpa [run_pass] using hx)
  | cons app rest ih =>
    intro s cf x hx
    simp only [run_pass] at hx
    by_cases hmem : app ∈ s.processed
    · rw [if_pos hmem] at hx
      rcases ih s cf x hx with h1 | h2
      · exact Or.inl h1
      · exact Or.inr ⟨List.mem_cons_of_mem _ h2.1, h2.2⟩
    · rw [if_neg hmem] at hx
      by_cases hstop : stop s.time
      · simp only [hstop, if_true] at hx; exact Or.inl (by simpa using hx)
      · simp only [hstop, Bool.false_eq_true, if_false] at hx
        cases hf : fetch app attempt with
        | some dd =>
          rw [hf] at hx
          rcases ih _ _ x hx with h1 | h2
          · simp only [mem_insert_app_iff] at h1
            rcases h1 with h1a | h1b
            · subst h1a
              exact Or.inr ⟨List.mem_cons_self _ _, by rw [hf]; rfl⟩
            · exact Or.inl h1b
          · exact Or.inr ⟨List.mem_cons_of_mem _ h2.1, h2.2⟩
        | none =>
          rw [hf] at hx
          rcases ih _ _ x hx with h1 | h2
          · exact Or.inl h1
          · exact Or.inr ⟨List.mem_cons_of_mem _ h2.1, h2.2⟩

theorem run_pass_curFailed_sub
    (fetch : String → Nat → Option DetailsData) (stop : Nat → Bool)
    (th : List String) (email : String) (attempt : Nat) :
    ∀ (apps : List String) (s : RunState) (cf : List String),
      ∀ x ∈ (run_pass fetch stop th email attempt apps s cf).curFailed,
        x ∈ cf ∨ (x ∈ apps ∧ x ∉ s.processed ∧ (fetch x attempt).isSome = false) := by
  intro apps
  induction apps with
  | nil => intro s cf x hx; exact Or.inl (by simpa [run_pass] using hx)
  | cons app rest ih =>
    intro s cf x hx
    simp only [run_pass] at hx
    by_cases hmem : app ∈ s.processed
    · rw [if_pos hmem] at hx
      rcases ih s cf x hx with h1 | h2
      · exact Or.inl h1
      · exact Or.inr ⟨List.mem_cons_of_mem _ h2.1, h2.2⟩
    · rw [if_neg hmem] at hx
      by_cases hstop : stop s.time
      · simp only [hstop, if_true] at hx; exact Or.inl (by simpa using hx)
      · simp only [hstop, Bool.false_eq_true, if_false] at hx
        cases hf : fetch app attempt with
        | some dd =>
          rw [hf] at hx
          rcases ih _ _ x hx with h1 | h2
          · exact Or.inl h1
          · refine Or.inr ⟨List.mem_cons_of_mem _ h2.1, ?_, h2.2.2⟩
            intro hxs
            exact h2.2.1 ((mem_insert_app_iff s.processed app x).mpr (Or.inr hxs))
        | none =>
          rw [hf] at hx
          rcases ih _ _ x hx with h1 | h2
          · simp only [mem_insert_app_iff] at h1
            rcases h1 with h1a | h1b
            · subst h1a
              exact Or.inr ⟨List.mem_cons_self _ _, hmem, by rw [hf]; rfl⟩
            · exact Or.inl h1b
          · exact Or.inr ⟨List.mem_cons_of_mem _ h2.1, h2.2⟩

theorem run_pass_cf_mono
    (fetch : String → Nat → Option DetailsData) (stop : Nat → Bool)
    (th : List String) (email : String) (attempt : Nat) :
    ∀ (apps : List String) (s : RunState) (cf : List String),
      ∀ x ∈ cf, x ∈ (run_pass fetch stop th email attempt apps s cf).curFailed := by
  intro apps
  induction apps with
  | nil => intro s cf x hx; simpa [run_pass] using hx
  | cons app rest ih =>
    intro s cf x hx
    simp only [run_pass]
    by_cases hmem : app ∈ s.processed
    · rw [if_pos hmem]; exact ih s cf x hx
    · rw [if_neg hmem]
      by_cases hstop : stop s.time
      · simp only [hstop, if_true]; simpa using hx
      · simp only [hstop, Bool.false_eq_true, if_false]
        cases hf : fetch app attempt with
        | some dd => exact ih _ _ x hx
        | none =>
          exact ih _ _ x ((mem_insert_app_iff cf app x).mpr (Or.inr hx))

theorem run_pass_nostop
    (fetch : String → Nat → Option DetailsData)
    (th : List String) (email : String) (attempt : Nat) :
    ∀ (apps : List String) (s : RunState) (cf : List String),
      (run_pass fetch (fun _ => false) th email attempt apps s cf).aborted = false ∧
      ∀ x ∈ apps,
        x ∈ (run_pass fetch (fun _ => false) th email attempt apps s cf).state.processed ∨
        x ∈ (run_pass fetch (fun _ => false) th email attempt apps s cf).curFailed := by
  intro apps
  induction apps with
  | nil =>
    intro s cf
    refine ⟨by simp [run_pass], ?_⟩
    intro x hx; simp at hx
  | cons app rest ih =>
    intro s cf
    simp only [run_pass, Bool.false_eq_true, if_false]
    by_cases hmem : app ∈ s.processed
    · rw [if_pos hmem]
      refine ⟨(ih s cf).1, ?_⟩
      intro x hx
      rcases List.mem_cons.mp hx with h1 | h2
      · subst h1
        exact Or.inl (run_pass_processed_mono fetch (fun _ => false) th email attempt
          rest s cf x hmem)
      · exact (ih s cf).2 x h2
    · rw [if_neg hmem]
      cases hf : fetch app attempt with
      | some dd =>
        refine ⟨(ih _ _).1, ?_⟩
        intro x hx
        rcases List.mem_cons.mp hx with h1 | h2
        · subst h1
          refine Or.inl (run_pass_processed_mono fetch (fun _ => false) th email attempt
            rest _ _ x ?_)
          exact (mem_insert_app_iff s.processed x x).mpr (Or.inl rfl)
        · exact (ih _ _).2 x h2
      | none =>
        refine ⟨(ih _ _).1, ?_⟩
        intro x hx
        rcases List.mem_cons.mp hx with h1 | h2
        · subst h1
          refine Or.inr (run_pass_cf_mono fetch (fun _ => false) th email attempt
            rest _ _ x ?_)
          exact (mem_insert_app_iff cf x x).mpr (Or.inl rfl)
        · exact (ih _ _).2 x h2

theorem run_pass_log_extends
    (fetch : String → Nat → Option DetailsData) (stop : Nat → Bool)
    (th : List String) (email : String) (attempt : Nat) :
    ∀ (apps : List String) (s : RunState) (cf : List String),
      ∃ tail, (run_pass fetch stop th email attempt apps s cf).state.log =
        s.log ++ tail := by
  intro apps
  induction apps with
  | nil => intro s cf; exact ⟨[], by simp [run_pass]⟩
  | cons app rest ih =>
    intro s cf
    simp only [run_pass]
    by_cases hmem : app ∈ s.processed
    · rw [if_pos hmem]; exact ih s cf
    · rw [if_neg hmem]
      by_cases hstop : stop s.time
      · simp only [hstop, if_true]
        exact ⟨[.abortedByUser], by simp⟩
      · simp only [hstop, Bool.false_eq_true, if_false]
        cases hf : fetch app attempt with
        | some dd =>
          obtain ⟨tail, htail⟩ := ih
            { csv := (update_csv_with_email_data th s.csv email app dd).1
              processed := insert_app s.processed app
              time := s.time + 1
              log := s.log ++ [.processing app attempt] ++
                (if (update_csv_with_email_data th s.csv email app dd).2 then
                  [LogMsg.csvError] else [LogMsg.csvUpdated app]) ++
                [.successMsg app] } cf
          refine ⟨[.processing app attempt] ++
            (if (update_csv_with_email_data th s.csv email app dd).2 then
              [LogMsg.csvError] else [LogMsg.csvUpdated app]) ++
            [.successMsg app] ++ tail, ?_⟩
          exact htail.trans (by simp)
        | none =>
          obtain ⟨tail, htail⟩ := ih
            { s with time := s.time + 1
                     log := s.log ++ [.processing app attempt, .attemptError app attempt] }
            (insert_app cf app)
          refine ⟨[.processing app attempt, .attemptError app attempt] ++ tail, ?_⟩
          exact htail.trans (by simp)

/-- The log-entry shapes a pass can append (fetch trace, store trace,
success mark, abort notice); summaries, retry announcements and permanent
failure reports come only from the attempt loop. -/
def is_pass_entry : LogMsg → Bool
  | .processing _ _ => true
  | .successMsg _ => true
  | .attemptError _ _ => true
  | .csvUpdated _ => true
  | .csvError => true
  | .abortedByUser => true
  | _ => false

theorem run_pass_new_entries
    (fetch : String → Nat → Option DetailsData) (stop : Nat → Bool)
    (th : List String) (email : String) (attempt : Nat) :
    ∀ (apps : List String) (s : RunState) (cf : List String),
      ∀ m ∈ (run_pass fetch stop th email attempt apps s cf).state.log,
        m ∈ s.log ∨ is_pass_entry m = true := by
  intro apps
  induction apps with
  | nil => intro s cf m hm; exact Or.inl (by simpa [run_pass] using hm)
  | cons app rest ih =>
    intro s cf m hm
    simp only [run_pass] at hm
    by_cases hmem : app ∈ s.processed
    · rw [if_pos hmem] at hm; exact ih s cf m hm
    · rw [if_neg hmem] at hm
      by_cases hstop : stop s.time
      · simp only [hstop, if_true] at hm
        simp only [List.mem_append] at hm
        rcases hm with hm1 | hm2
        · exact Or.inl hm1
        · simp at hm2; subst hm2; exact Or.inr rfl
      · simp only [hstop, Bool.false_eq_true, if_false] at hm
        cases hf : fetch app attempt with
        | some dd =>
          rw [hf] at hm
          rcases ih _ _ m hm with h1 | h2
          · simp only [List.mem_append] at h1
            rcases h1 with ((ha | hb) | hc) | hd
            · exact Or.inl ha
            · simp at hb; subst hb; exact Or.inr rfl
            · by_cases hflag : (update_csv_with_email_data th s.csv email app dd).2
              · rw [if_pos hflag] at hc; simp at hc; subst hc; exact Or.inr rfl
              · rw [if_neg hflag] at hc; simp at hc; subst hc; exact Or.inr rfl
            · simp at hd; subst hd; exact Or.inr rfl
          · exact Or.inr h2
        | none =>
          rw [hf] at hm
          rcases ih _ _ m hm with h1 | h2
          · simp only [List.mem_append] at h1
            rcases h1 with ha | hb
            · exact Or.inl ha
            · simp at hb
              rcases hb with hb1 | hb2
              · subst hb1; exact Or.inr rfl
              · subst hb2; exact Or.inr rfl
          · exact Or.inr h2

theorem run_pass_processing_sub
    (fetch : String → Nat → Option DetailsData) (stop : Nat → Bool)
    (th : List String) (email : String) (attempt : Nat) :
    ∀ (apps : List String) (s : RunState) (cf : List String),
      ∀ (x : String) (a : Nat),
        LogMsg.processing x a ∈ (run_pass fetch stop th email attempt apps s cf).state.log →
        LogMsg.processing x a ∈ s.log ∨ (a = attempt ∧ x ∈ apps ∧ x ∉ s.processed) := by
  intro apps
  induction apps with
  | nil => intro s cf x a hm; exact Or.inl (by simpa [run_pass] using hm)
  | cons app rest ih =>
    intro s cf x a hm
    simp only [run_pass] at hm
    by_cases hmem : app ∈ s.processed
    · rw [if_pos hmem] at hm
      rcases ih s cf x a hm with h1 | h2
      · exact Or.inl h1
      · exact Or.inr ⟨h2.1, List.mem_cons_of_mem _ h2.2.1, h2.2.2⟩
    · rw [if_neg hmem] at hm
      by_cases hstop : stop s.time
      · simp only [hstop, if_true] at hm
        simp only [List.mem_append] at hm
        rcases hm with hm1 | hm2
        · exact Or.inl hm1
        · simp at hm2
      · simp only [hstop, Bool.false_eq_true, if_false] at hm
        cases hf : fetch app attempt with
        | some dd =>
          rw [hf] at hm
          rcases ih _ _ x a hm with h1 | h2
          · simp only [List.mem_append] at h1
            rcases h1 with ((ha | hb) | hc) | hd
            · exact Or.inl ha
            · simp at hb
              exact Or.inr ⟨hb.2, by simp [hb.1], by rw [hb.1]; exact hmem⟩
            · by_cases hflag : (update_csv_with_email_data th s.csv email app dd).2
              · rw [if_pos hflag] at hc; simp at hc
              · rw [if_neg hflag] at hc; simp at hc
            · simp at hd
          · refine Or.inr ⟨h2.1, List.mem_cons_of_mem _ h2.2.1, ?_⟩
            intro hxs
            exact h2.2.2 ((mem_insert_app_iff s.processed app x).mpr (Or.inr hxs))
        | none =>
          rw [hf] at hm
          rcases ih _ _ x a hm with h1 | h2
          · simp only [List.mem_append] at h1
            rcases h1 with ha | hb
            · exact Or.inl ha
            · rcases List.mem_cons.mp hb with hb1 | hb2
              · injection hb1 with hx ha
                subst hx; subst ha
                exact Or.inr ⟨rfl, by simp, hmem⟩
              · simp at hb2
          · exact Or.inr ⟨h2.1, List.mem_cons_of_mem _ h2.2.1, h2.2.2⟩

theorem run_pass_time
    (fetch : String → Nat → Option DetailsData) (stop : Nat → Bool)
    (th : List String) (email : String) (attempt : Nat) :
    ∀ (apps : List String) (s : RunState) (cf : List String),
      s.time ≤ (run_pass fetch stop th email attempt apps s cf).state.time ∧
      ∀ t, s.time ≤ t →
        t < (run_pass fetch stop th email attempt apps s cf).state.time →
        stop t = false := by
  intro apps
  induction apps with
  | nil =>
    intro s cf
    refine ⟨Nat.le_refl _, ?_⟩
    intro t ht1 ht2
    exact absurd ht1 (Nat.not_le.mpr ht2)
  | cons app rest ih =>
    intro s cf
    simp only [run_pass]
    by_cases hmem : app ∈ s.processed
    · rw [if_pos hmem]; exact ih s cf
    · rw [if_neg hmem]
      by_cases hstop : stop s.time
      · simp only [hstop, if_true]
        refine ⟨Nat.le_refl _, ?_⟩
        intro t ht1 ht2
        exact absurd ht1 (Nat.not_le.mpr ht2)
      · simp only [hstop, Bool.false_eq_true, if_false]
        cases hf : fetch app attempt with
        | some dd =>
          obtain ⟨hle, hpoll⟩ := ih
            { csv := (update_csv_with_email_data th s.csv email app dd).1
              processed := insert_app s.processed app
              time := s.time + 1
              log := s.log ++ [.processing app attempt] ++
                (if (update_csv_with_email_data th s.csv email app dd).2 then
                  [LogMsg.csvError] else [LogMsg.csvUpdated app]) ++
                [.successMsg app] } cf
          refine ⟨Nat.le_trans (Nat.le_succ _) hle, ?_⟩
          intro t ht1 ht2
          by_cases ht : t = s.time
          · subst ht; simpa using hstop
          · exact hpoll t (by simpa using Nat.lt_of_le_of_ne ht1 (Ne.symm ht)) ht2
        | none =>
          obtain ⟨hle, hpoll⟩ := ih
            { s with time := s.time + 1
                     log := s.log ++ [.processing app attempt, .attemptError app attempt] }
            (insert_app cf app)
          refine ⟨Nat.le_trans (Nat.le_succ _) hle, ?_⟩
          intro t ht1 ht2
          by_cases ht : t = s.time
          · subst ht; simpa using hstop
          · exact hpoll t (by simpa using Nat.lt_of_le_of_ne ht1 (Ne.symm ht)) ht2

theorem run_pass_abort_log
    (fetch : String → Nat → Option DetailsData) (stop : Nat → Bool)
    (th : List String) (email : String) (attempt : Nat) :
    ∀ (apps : List String) (s : RunState) (cf : List String),
      (run_pass fetch stop th email attempt apps s cf).aborted = true →
      ∃ l, (run_pass fetch stop th email attempt apps s cf).state.log =
        l ++ [.abortedByUser] := by
  intro apps
  induction apps with
  | nil => intro s cf hab; simp [run_pass] at hab
  | cons app rest ih =>
    intro s cf hab
    simp only [run_pass] at hab ⊢
    by_cases hmem : app ∈ s.processed
    · rw [if_pos hmem] at hab ⊢; exact ih s cf hab
    · rw [if_neg hmem] at hab ⊢
      by_cases hstop : stop s.time
      · simp only [hstop, if_true]
        exact ⟨s.log, rfl⟩
      · simp only [hstop, Bool.false_eq_true, if_false] at hab ⊢
        cases hf : fetch app attempt with
        | some dd => rw [hf] at hab; exact ih _ _ hab
        | none => rw [hf] at hab; exact ih _ _ hab

theorem run_pass_success_iff
    (fetch : String → Nat → Option DetailsData) (stop : Nat → Bool)
    (th : List String) (email : String) (attempt : Nat) :
    ∀ (apps : List String) (s : RunState) (cf : List String),
      (∀ x, LogMsg.successMsg x ∈ s.log ↔ x ∈ s.processed) →
      ∀ x, LogMsg.successMsg x ∈ (run_pass fetch stop th email attempt apps s cf).state.log ↔
        x ∈ (run_pass fetch stop th email attempt apps s cf).state.processed := by
  intro apps
  induction apps with
  | nil => intro s cf hinv x; simpa [run_pass] using hinv x
  | cons app rest ih =>
    intro s cf hinv x
    simp only [run_pass]
    by_cases hmem : app ∈ s.processed
    · rw [if_pos hmem]; exact ih s cf hinv x
    · rw [if_neg hmem]
      by_cases hstop : stop s.time
      · simp only [hstop, if_true]
        simp only [List.mem_append]
        constructor
        · intro hx
          rcases hx with hx1 | hx2
          · exact (hinv x).mp hx1
          · simp at hx2
        · intro hx
          exact Or.inl ((hinv x).mpr hx)
      · simp only [hstop, Bool.false_eq_true, if_false]
        cases hf : fetch app attempt with
        | some dd =>
          refine ih _ cf ?_ x
          intro y
          simp only [List.mem_append, mem_insert_app_iff]
          constructor
          · intro hy
            rcases hy with ((hy1 | hy2) | hy3) | hy4
            · exact Or.inr ((hinv y).mp hy1)
            · simp at hy2
            · by_cases hflag : (update_csv_with_email_data th s.csv email app dd).2
              · rw [if_pos hflag] at hy3; simp at hy3
              · rw [if_neg hflag] at hy3; simp at hy3
            · simp at hy4; exact Or.inl hy4
          · intro hy
            rcases hy with hy1 | hy2
            · subst hy1; simp
            · exact Or.inl (Or.inl (Or.inl ((hinv y).mpr hy2)))
        | none =>
          refine ih _ _ ?_ x
          intro y
          simp only [List.mem_append]
          constructor
          · intro hy
            rcases hy with hy1 | hy2
            · exact (hinv y).mp hy1
            · simp at hy2
          · intro hy
            exact Or.inl ((hinv y).mpr hy)

/-- Consecutive entries of a pass trace are linked: each later pass works
exactly on the failures of the previous pass, and a pass with no failures
is never followed by another pass (early termination). -/
def trace_chained : List (List String × List String) → Prop
  | [] => True
  | [_] => True
  | (_, f1) :: (ws2, f2) :: rest =>
    (∀ x, x ∈ ws2 ↔ x ∈ f1) ∧ f1 ≠ [] ∧ trace_chained ((ws2, f2) :: rest)

/-- The accumulated trace may be continued by a pass over `apps`: either
it is empty, or its last pass failed exactly `apps` (and non-trivially). -/
def links_to (trace : List (List String × List String)) (apps : List String) : Prop :=
  match trace.getLast? with
  | none => True
  | some (_, f) => (∀ x, x ∈ apps ↔ x ∈ f) ∧ f ≠ []

theorem trace_chained_append_one (e : List String × List String) :
    ∀ trace, trace_chained trace → links_to trace e.1 →
      trace_chained (trace ++ [e]) := by
  intro trace
  induction trace with
  | nil => intro _ _; simp [trace_chained]
  | cons a rest ih =>
    intro hch hlink
    cases rest with
    | nil =>
      obtain ⟨ws, f⟩ := a
      obtain ⟨we, fe⟩ := e
      simp only [links_to, List.getLast?_singleton] at hlink
      simp only [List.cons_append, List.nil_append, trace_chained]
      exact ⟨hlink.1, hlink.2, trivial⟩
    | cons b rest2 =>
      obtain ⟨ws, f⟩ := a
      obtain ⟨ws2, f2⟩ := b
      simp only [trace_chained] at hch
      simp only [List.cons_append, trace_chained]
      refine ⟨hch.1, hch.2.1, ?_⟩
      have hlink2 : links_to ((ws2, f2) :: rest2) e.1 := by
        simp only [links_to, List.getLast?_cons_cons] at hlink ⊢
        cases hrest : rest2 with
        | nil => simpa [hrest, List.getLast?_singleton] using hlink
        | cons c rest3 => rw [hrest] at hlink; exact hlink
      have := ih hch.2.2 hlink2
      simpa using this

theorem loop_trace (fetch : String → Nat → Option DetailsData) (stop : Nat → Bool)
    (th : List String) (email : String) :
    ∀ (r attempt : Nat) (apps failedVar : List String) (s : RunState)
      (trace : List (List String × List String)),
      ∃ newt,
        (loop_attempts fetch stop th email r attempt apps failedVar s trace).passTrace =
          trace ++ newt ∧
        newt.length ≤ r ∧
        (0 < r → ∃ f rest, newt = (apps, f) :: rest) := by
  intro r
  induction r with
  | zero =>
    intro attempt apps failedVar s trace
    refine ⟨[], by simp [loop_attempts, finish_run], by simp, ?_⟩
    intro h; omega
  | succ r ih =>
    intro attempt apps failedVar s trace
    simp only [loop_attempts]
    by_cases hab : (run_pass fetch stop th email attempt apps s []).aborted
    · rw [if_pos hab]
      exact ⟨[(apps, (run_pass fetch stop th email attempt apps s []).curFailed)],
        by simp, by simp, fun _ => ⟨_, [], rfl⟩⟩
    · rw [if_neg hab]
      by_cases hr : r = 0
      · subst hr
        have hbeq0 : (0 == 0) = true := rfl
        rw [hbeq0]
        simp only [if_true]
        exact ⟨[(apps, (run_pass fetch stop th email attempt apps s []).curFailed)],
          by simp [finish_run], by simp, fun _ => ⟨_, [], rfl⟩⟩
      · have hbeq : (r == 0) = false := by simp [hr]
        rw [hbeq]
        simp only [Bool.false_eq_true, if_false]
        by_cases hemp : (run_pass fetch stop th email attempt apps s []).curFailed.isEmpty
        · rw [if_pos hemp]
          exact ⟨[(apps, (run_pass fetch stop th email attempt apps s []).curFailed)],
            by simp [finish_run], by simp, fun _ => ⟨_, [], rfl⟩⟩
        · rw [if_neg hemp]
          obtain ⟨newt, hnewt, hlen, _⟩ := ih (attempt + 1)
            (run_pass fetch stop th email attempt apps s []).curFailed
            (run_pass fetch stop th email attempt apps s []).curFailed
            { (run_pass fetch stop th email attempt apps s []).state with
              log := (run_pass fetch stop th email attempt apps s []).state.log ++
                [.retryAnnounce (run_pass fetch stop th email attempt apps s []).curFailed.length] }
            (trace ++ [(apps, (run_pass fetch stop th email attempt apps s []).curFailed)])
          refine ⟨(apps, (run_pass fetch stop th email attempt apps s []).curFailed) :: newt, ?_, ?_, ?_⟩
          · rw [hnewt]; simp
          · simp; omega
          · intro _; exact ⟨_, newt, rfl⟩

theorem loop_chain (fetch : String → Nat → Option DetailsData) (stop : Nat → Bool)
    (th : List String) (email : String) :
    ∀ (r attempt : Nat) (apps failedVar : List String) (s : RunState)
      (trace : List (List String × List String)),
      trace_chained trace → links_to trace apps →
      trace_chained
        (loop_attempts fetch stop th email r attempt apps failedVar s trace).passTrace := by
  intro r
  induction r with
  | zero =>
    intro attempt apps failedVar s trace hch _
    simpa [loop_attempts, finish_run] using hch
  | succ r ih =>
    intro attempt apps failedVar s trace hch hlink
    simp only [loop_attempts]
    have hch' : trace_chained
        (trace ++ [(apps, (run_pass fetch stop th email attempt apps s []).curFailed)]) :=
      trace_chained_append_one _ trace hch hlink
    by_cases hab : (run_pass fetch stop th email attempt apps s []).aborted
    · rw [if_pos hab]; exact hch'
    · rw [if_neg hab]
      by_cases hr : r = 0
      · subst hr
        have hbeq0 : (0 == 0) = true := rfl
        rw [hbeq0]
        simp only [if_true]
        by_cases hemp : (run_pass fetch stop th email attempt apps s []).curFailed.isEmpty
        · simpa [finish_run, hemp] using hch'
        · simpa [finish_run, hemp] using hch'
      · have hbeq : (r == 0) = false := by simp [hr]
        rw [hbeq]
        simp only [Bool.false_eq_true, if_false]
        by_cases hemp : (run_pass fetch stop th email attempt apps s []).curFailed.isEmpty
        · rw [if_pos hemp]
          simpa [finish_run] using hch'
        · rw [if_neg hemp]
          refine ih (attempt + 1) _ _ _ _ hch' ?_
          simp only [links_to, List.getLast?_append, List.getLast?_singleton]
          refine ⟨fun x => Iff.rfl, ?_⟩
          intro hnil
          rw [hnil] at hemp
          simp at hemp

theorem loop_nostop_partition (fetch : String → Nat → Option DetailsData)
    (th : List String) (email : String) :
    ∀ (r attempt : Nat) (apps failedVar : List String) (s : RunState)
      (trace : List (List String × List String)),
      0 < r →
      (∀ x ∈ apps, x ∉ s.processed) →
      (loop_attempts fetch (fun _ => false) th email r attempt apps failedVar s trace).aborted = false ∧
      (∀ x ∈ s.processed,
        x ∈ (loop_attempts fetch (fun _ => false) th email r attempt apps failedVar s trace).processed) ∧
      (∀ x ∈ apps,
        x ∈ (loop_attempts fetch (fun _ => false) th email r attempt apps failedVar s trace).processed ∨
        x ∈ (loop_attempts fetch (fun _ => false) th email r attempt apps failedVar s trace).permFailed) ∧
      (∀ x ∈ (loop_attempts fetch (fun _ => false) th email r attempt apps failedVar s trace).permFailed,
        x ∉ (loop_attempts fetch (fun _ => false) th email r attempt apps failedVar s trace).processed) := by
  intro r
  induction r with
  | zero => intro attempt apps failedVar s trace h0; exact absurd h0 (by omega)
  | succ r ih =>
    intro attempt apps failedVar s trace _ hdisj
    simp only [loop_attempts]
    have hnostop := run_pass_nostop fetch th email attempt apps s []
    have habf : ¬((run_pass fetch (fun _ => false) th email attempt apps s []).aborted = true) := by
      rw [hnostop.1]; simp
    rw [if_neg habf]
    have hcfsub := run_pass_curFailed_sub fetch (fun _ => false) th email attempt apps s []
    have hpsub := run_pass_processed_sub fetch (fun _ => false) th email attempt apps s []
    have hpmono := run_pass_processed_mono fetch (fun _ => false) th email attempt apps s []
    have hcf_not_proc :
        ∀ x ∈ (run_pass fetch (fun _ => false) th email attempt apps s []).curFailed,
          x ∉ (run_pass fetch (fun _ => false) th email attempt apps s []).state.processed := by
      intro x hx hxp
      rcases hcfsub x hx with h1 | h2
      · simp at h1
      · rcases hpsub x hxp with h3 | h4
        · exact h2.2.1 h3
        · rw [h4.2] at h2; simp at h2
    by_cases hr : r = 0
    · subst hr
      have hbeq0 : (0 == 0) = true := rfl
      rw [hbeq0]
      simp only [if_true]
      refine ⟨by simp [finish_run], ?_, ?_, ?_⟩
      · intro x hx
        simp only [finish_run]
        exact hpmono x hx
      · intro x hx
        simp only [finish_run]
        exact hnostop.2 x hx
      · intro x hx
        simp only [finish_run] at hx ⊢
        exact hcf_not_proc x hx
    · have hbeq : (r == 0) = false := by simp [hr]
      rw [hbeq]
      simp only [Bool.false_eq_true, if_false]
      by_cases hemp : (run_pass fetch (fun _ => false) th email attempt apps s []).curFailed.isEmpty
      · rw [if_pos hemp]
        have hcfnil : (run_pass fetch (fun _ => false) th email attempt apps s []).curFailed = [] :=
          List.isEmpty_iff.mp hemp
        refine ⟨by simp [finish_run], ?_, ?_, ?_⟩
        · intro x hx
          simp only [finish_run]
          exact hpmono x hx
        · intro x hx
          simp only [finish_run]
          rcases hnostop.2 x hx with h1 | h2
          · exact Or.inl h1
          · rw [hcfnil] at h2; simp at h2
        · intro x hx
          simp only [finish_run] at hx
          simp at hx
      · rw [if_neg hemp]
        have hdisj' : ∀ x ∈ (run_pass fetch (fun _ => false) th email attempt apps s []).curFailed,
            x ∉ ({ (run_pass fetch (fun _ => false) th email attempt apps s []).state with
              log := (run_pass fetch (fun _ => false) th email attempt apps s []).state.log ++
                [.retryAnnounce (run_pass fetch (fun _ => false) th email attempt apps s []).curFailed.length] } : RunState).processed := by
          intro x hx
          exact hcf_not_proc x hx
        obtain ⟨hab', hmono', hpart', hdisj2⟩ := ih (attempt + 1)
          (run_pass fetch (fun _ => false) th email attempt apps s []).curFailed
          (run_pass fetch (fun _ => false) th email attempt apps s []).curFailed
          { (run_pass fetch (fun _ => false) th email attempt apps s []).state with
            log := (run_pass fetch (fun _ => false) th email attempt apps s []).state.log ++
              [.retryAnnounce (run_pass fetch (fun _ => false) th email attempt apps s []).curFailed.length] }
          (trace ++ [(apps, (run_pass fetch (fun _ => false) th email attempt apps s []).curFailed)])
          (by omega) hdisj'
        refine ⟨hab', ?_, ?_, hdisj2⟩
        · intro x hx
          exact hmono' x (hpmono x hx)
        · intro x hx
          rcases hnostop.2 x hx with h1 | h2
          · exact Or.inl (hmono' x h1)
          · exact hpart' x h2

theorem mem_finish_run_log (csv : CsvState) (processed permFailed failedVar : List String)
    (time : Nat) (log : List LogMsg) (trace : List (List String × List String))
    (m : LogMsg) :
    m ∈ (finish_run csv processed permFailed failedVar time log trace).log →
    m ∈ log ∨ (∃ n, m = .summaryProcessed n) ∨ (∃ n, m = .summaryFailed n) := by
  intro hm
  simp only [finish_run] at hm
  by_cases hfe : failedVar.isEmpty
  · rw [if_pos hfe] at hm
    rcases List.mem_append.mp hm with h1 | h2
    · exact Or.inl h1
    · simp at h2; exact Or.inr (Or.inl ⟨_, h2⟩)
  · rw [if_neg hfe] at hm
    rcases List.mem_append.mp hm with h1 | h2
    · rcases List.mem_append.mp h1 with h1a | h1b
      · exact Or.inl h1a
      · simp at h1b; exact Or.inr (Or.inl ⟨_, h1b⟩)
    · simp at h2; exact Or.inr (Or.inr ⟨_, h2⟩)

theorem loop_no_refetch (fetch : String → Nat → Option DetailsData) (stop : Nat → Bool)
    (th : List String) (email : String) :
    ∀ (r attempt : Nat) (apps failedVar : List String) (s : RunState)
      (trace : List (List String × List String)),
      (∀ x b, LogMsg.processing x b ∈ s.log → ∀ a, a < b → (fetch x a).isSome = false) →
      (∀ x, x ∈ apps → ∀ a, a < attempt → (fetch x a).isSome = false) →
      ∀ x b,
        LogMsg.processing x b ∈
          (loop_attempts fetch stop th email r attempt apps failedVar s trace).log →
        ∀ a, a < b → (fetch x a).isSome = false := by
  intro r
  induction r with
  | zero =>
    intro attempt apps failedVar s trace hlog _ x b hm a ha
    rcases mem_finish_run_log _ _ _ _ _ _ _ _ hm with h1 | h2 | h3
    · exact hlog x b h1 a ha
    · obtain ⟨n, hn⟩ := h2; simp at hn
    · obtain ⟨n, hn⟩ := h3; simp at hn
  | succ r ih =>
    intro attempt apps failedVar s trace hlog happs x b hm a ha
    simp only [loop_attempts] at hm
    have hplog : ∀ y c, LogMsg.processing y c ∈
        (run_pass fetch stop th email attempt apps s []).state.log →
        ∀ a2, a2 < c → (fetch y a2).isSome = false := by
      intro y c hyc a2 ha2
      rcases run_pass_processing_sub fetch stop th email attempt apps s [] y c hyc with h1 | h2
      · exact hlog y c h1 a2 ha2
      · exact happs y h2.2.1 a2 (by omega)
    by_cases hab : (run_pass fetch stop th email attempt apps s []).aborted
    · rw [if_pos hab] at hm
      exact hplog x b hm a ha
    · rw [if_neg hab] at hm
      by_cases hr : r = 0
      · subst hr
        have hbeq0 : (0 == 0) = true := rfl
        rw [hbeq0] at hm
        simp only [if_true] at hm
        rcases mem_finish_run_log _ _ _ _ _ _ _ _ hm with h1 | h2 | h3
        · by_cases hemp : (run_pass fetch stop th email attempt apps s []).curFailed.isEmpty
          · rw [if_pos hemp] at h1
            exact hplog x b h1 a ha
          · rw [if_neg hemp] at h1
            rcases List.mem_append.mp h1 with h1a | h1b
            · rcases List.mem_append.mp h1a with h1c | h1d
              · exact hplog x b h1c a ha
              · simp at h1d
            · simp at h1b
        · obtain ⟨n, hn⟩ := h2; simp at hn
        · obtain ⟨n, hn⟩ := h3; simp at hn
      · have hbeq : (r == 0) = false := by simp [hr]
        rw [hbeq] at hm
        simp only [Bool.false_eq_true, if_false] at hm
        by_cases hemp : (run_pass fetch stop th email attempt apps s []).curFailed.isEmpty
        · rw [if_pos hemp] at hm
          rcases mem_finish_run_log _ _ _ _ _ _ _ _ hm with h1 | h2 | h3
          · exact hplog x b h1 a ha
          · obtain ⟨n, hn⟩ := h2; simp at hn
          · obtain ⟨n, hn⟩ := h3; simp at hn
        · rw [if_neg hemp] at hm
          refine ih (attempt + 1) _ _ _ _ ?_ ?_ x b hm a ha
          · intro y c hyc a2 ha2
            rcases List.mem_append.mp hyc with h1 | h2
            · exact hplog y c h1 a2 ha2
            · simp at h2
          · intro y hy a2 ha2
            rcases run_pass_curFailed_sub fetch stop th email attempt apps s [] y hy with h1 | h2
            · simp at h1
            · by_cases ha2a : a2 = attempt
              · subst ha2a; exact h2.2.2
              · exact happs y h2.1 a2 (by omega)

theorem loop_poll (fetch : String → Nat → Option DetailsData) (stop : Nat → Bool)
    (th : List String) (email : String) :
    ∀ (r attempt : Nat) (apps failedVar : List String) (s : RunState)
      (trace : List (List String × List String)),
      s.time ≤ (loop_attempts fetch stop th email r attempt apps failedVar s trace).time ∧
      ∀ t, s.time ≤ t →
        t < (loop_attempts fetch stop th email r attempt apps failedVar s trace).time →
        stop t = false := by
  intro r
  induction r with
  | zero =>
    intro attempt apps failedVar s trace
    refine ⟨Nat.le_refl _, ?_⟩
    intro t ht1 ht2
    have hred : (loop_attempts fetch stop th email 0 attempt apps failedVar s trace).time =
        s.time := by simp [loop_attempts, finish_run]
    rw [hred] at ht2
    omega
  | succ r ih =>
    intro attempt apps failedVar s trace
    simp only [loop_attempts]
    obtain ⟨hple, hppoll⟩ := run_pass_time fetch stop th email attempt apps s []
    by_cases hab : (run_pass fetch stop th email attempt apps s []).aborted
    · rw [if_pos hab]
      exact ⟨hple, hppoll⟩
    · rw [if_neg hab]
      by_cases hr : r = 0
      · subst hr
        have hbeq0 : (0 == 0) = true := rfl
        rw [hbeq0]
        simp only [if_true]
        refine ⟨?_, ?_⟩
        · simpa [finish_run] using hple
        · intro t ht1 ht2
          simp only [finish_run] at ht2
          exact hppoll t ht1 ht2
      · have hbeq : (r == 0) = false := by simp [hr]
        rw [hbeq]
        simp only [Bool.false_eq_true, if_false]
        by_cases hemp : (run_pass fetch stop th email attempt apps s []).curFailed.isEmpty
        · rw [if_pos hemp]
          refine ⟨by simpa [finish_run] using hple, ?_⟩
          intro t ht1 ht2
          simp only [finish_run] at ht2
          exact hppoll t ht1 ht2
        · rw [if_neg hemp]
          obtain ⟨hle', hpoll'⟩ := ih (attempt + 1)
            (run_pass fetch stop th email attempt apps s []).curFailed
            (run_pass fetch stop th email attempt apps s []).curFailed
            { (run_pass fetch stop th email attempt apps s []).state with
              log := (run_pass fetch stop th email attempt apps s []).state.log ++
                [.retryAnnounce (run_pass fetch stop th email attempt apps s []).curFailed.length] }
            (trace ++ [(apps, (run_pass fetch stop th email attempt apps s []).curFailed)])
          refine ⟨Nat.le_trans hple hle', ?_⟩
          intro t ht1 ht2
          by_cases htp : t < (run_pass fetch stop th email attempt apps s []).state.time
          · exact hppoll t ht1 htp
          · exact hpoll' t (Nat.not_lt.mp htp) ht2

theorem loop_abort (fetch : String → Nat → Option DetailsData) (stop : Nat → Bool)
    (th : List String) (email : String) :
    ∀ (r attempt : Nat) (apps failedVar : List String) (s : RunState)
      (trace : List (List String × List String)),
      (∀ n, LogMsg.summaryProcessed n ∉ s.log ∧ LogMsg.summaryFailed n ∉ s.log) →
      (loop_attempts fetch stop th email r attempt apps failedVar s trace).aborted = true →
      (loop_attempts fetch stop th email r attempt apps failedVar s trace).permFailed = [] ∧
      (∃ l, (loop_attempts fetch stop th email r attempt apps failedVar s trace).log =
        l ++ [.abortedByUser]) ∧
      (∀ n, LogMsg.summaryProcessed n ∉
          (loop_attempts fetch stop th email r attempt apps failedVar s trace).log ∧
        LogMsg.summaryFailed n ∉
          (loop_attempts fetch stop th email r attempt apps failedVar s trace).log) := by
  intro r
  induction r with
  | zero =>
    intro attempt apps failedVar s trace _ habt
    have : (loop_attempts fetch stop th email 0 attempt apps failedVar s trace).aborted =
        false := by simp [loop_attempts, finish_run]
    rw [this] at habt
    exact absurd habt (by simp)
  | succ r ih =>
    intro attempt apps failedVar s trace hsumm habt
    simp only [loop_attempts] at habt ⊢
    have hsump : ∀ n, LogMsg.summaryProcessed n ∉
        (run_pass fetch stop th email attempt apps s []).state.log ∧
        LogMsg.summaryFailed n ∉
        (run_pass fetch stop th email attempt apps s []).state.log := by
      intro n
      constructor
      · intro hmem
        rcases run_pass_new_entries fetch stop th email attempt apps s [] _ hmem with h1 | h2
        · exact (hsumm n).1 h1
        · simp [is_pass_entry] at h2
      · intro hmem
        rcases run_pass_new_entries fetch stop th email attempt apps s [] _ hmem with h1 | h2
        · exact (hsumm n).2 h1
        · simp [is_pass_entry] at h2
    by_cases hab : (run_pass fetch stop th email attempt apps s []).aborted
    · rw [if_pos hab] at habt ⊢
      exact ⟨rfl, run_pass_abort_log fetch stop th email attempt apps s [] hab, hsump⟩
    · rw [if_neg hab] at habt ⊢
      by_cases hr : r = 0
      · subst hr
        have hbeq0 : (0 == 0) = true := rfl
        rw [hbeq0] at habt
        simp only [if_true] at habt
        simp [finish_run] at habt
      · have hbeq : (r == 0) = false := by simp [hr]
        rw [hbeq] at habt ⊢
        simp only [Bool.false_eq_true, if_false] at habt ⊢
        by_cases hemp : (run_pass fetch stop th email attempt apps s []).curFailed.isEmpty
        · rw [if_pos hemp] at habt
          simp [finish_run] at habt
        · rw [if_neg hemp] at habt ⊢
          refine ih (attempt + 1) _ _ _ _ ?_ habt
          intro n
          constructor
          · intro hmem
            rcases List.mem_append.mp hmem with h1 | h2
            · exact (hsump n).1 h1
            · simp at h2
          · intro hmem
            rcases List.mem_append.mp hmem with h1 | h2
            · exact (hsump n).2 h1
            · simp at h2

theorem loop_success_iff (fetch : String → Nat → Option DetailsData) (stop : Nat → Bool)
    (th : List String) (email : String) :
    ∀ (r attempt : Nat) (apps failedVar : List String) (s : RunState)
      (trace : List (List String × List String)),
      (∀ x, LogMsg.successMsg x ∈ s.log ↔ x ∈ s.processed) →
      ∀ x, LogMsg.successMsg x ∈
          (loop_attempts fetch stop th email r attempt apps failedVar s trace).log ↔
        x ∈ (loop_attempts fetch stop th email r attempt apps failedVar s trace).processed := by
  intro r
  induction r with
  | zero =>
    intro attempt apps failedVar s trace hinv x
    simp only [loop_attempts, finish_run]
    by_cases hfe : failedVar.isEmpty <;>
      simp only [hfe, if_true, Bool.false_eq_true, if_false] <;>
      simp [List.mem_append, hinv x]
  | succ r ih =>
    intro attempt apps failedVar s trace hinv x
    simp only [loop_attempts]
    have hpinv := run_pass_success_iff fetch stop th email attempt apps s [] hinv
    by_cases hab : (run_pass fetch stop th email attempt apps s []).aborted
    · rw [if_pos hab]
      exact hpinv x
    · rw [if_neg hab]
      by_cases hr : r = 0
      · subst hr
        have hbeq0 : (0 == 0) = true := rfl
        rw [hbeq0]
        simp only [if_true]
        simp only [finish_run]
        by_cases hemp : (run_pass fetch stop th email attempt apps s []).curFailed.isEmpty <;>
          by_cases hfe : failedVar.isEmpty <;>
          simp [hemp, hfe, List.mem_append, List.mem_map, hpinv x]
      · have hbeq : (r == 0) = false := by simp [hr]
        rw [hbeq]
        simp only [Bool.false_eq_true, if_false]
        by_cases hemp : (run_pass fetch stop th email attempt apps s []).curFailed.isEmpty
        · rw [if_pos hemp]
          simp only [finish_run]
          by_cases hfe : (run_pass fetch stop th email attempt apps s []).curFailed.isEmpty <;>
            simp only [hfe, if_true, Bool.false_eq_true, if_false] <;>
            simp [List.mem_append, hpinv x]
        · rw [if_neg hemp]
          refine ih (attempt + 1) _ _ _ _ ?_ x
          intro y
          simp only [List.mem_append]
          constructor
          · intro hy
            rcases hy with h1 | h2
            · exact (hpinv y).mp h1
            · simp at h2
          · intro hy
            exact Or.inl ((hpinv y).mpr hy)

theorem run_pass_csv_independent (fetch : String → Nat → Option DetailsData)
    (stop : Nat → Bool) (th : List String) (email : String) (attempt : Nat) :
    ∀ (apps : List String) (s1 s2 : RunState) (cf : List String),
      s1.processed = s2.processed → s1.time = s2.time →
      (run_pass fetch stop th email attempt apps s1 cf).curFailed =
        (run_pass fetch stop th email attempt apps s2 cf).curFailed ∧
      (run_pass fetch stop th email attempt apps s1 cf).aborted =
        (run_pass fetch stop th email attempt apps s2 cf).aborted ∧
      (run_pass fetch stop th email attempt apps s1 cf).state.processed =
        (run_pass fetch stop th email attempt apps s2 cf).state.processed ∧
      (run_pass fetch stop th email attempt apps s1 cf).state.time =
        (run_pass fetch stop th email attempt apps s2 cf).state.time := by
  intro apps
  induction apps with
  | nil =>
    intro s1 s2 cf hp ht
    simp [run_pass, hp, ht]
  | cons app rest ih =>
    intro s1 s2 cf hp ht
    simp only [run_pass]
    rw [hp, ht]
    by_cases hmem : app ∈ s2.processed
    · rw [if_pos hmem, if_pos hmem]
      exact ih s1 s2 cf hp ht
    · rw [if_neg hmem, if_neg hmem]
      by_cases hstop : stop s2.time
      · simp only [hstop, if_true]
        simp [hp, ht]
      · simp only [hstop, Bool.false_eq_true, if_false]
        cases hf : fetch app attempt with
        | some dd => exact ih _ _ cf rfl rfl
        | none => exact ih _ _ (insert_app cf app) rfl rfl

theorem loop_csv_independent (fetch : String → Nat → Option DetailsData)
    (stop : Nat → Bool) (th : List String) (email : String) :
    ∀ (r attempt : Nat) (apps failedVar : List String) (s1 s2 : RunState)
      (trace : List (List String × List String)),
      s1.processed = s2.processed → s1.time = s2.time →
      (loop_attempts fetch stop th email r attempt apps failedVar s1 trace).processed =
        (loop_attempts fetch stop th email r attempt apps failedVar s2 trace).processed ∧
      (loop_attempts fetch stop th email r attempt apps failedVar s1 trace).permFailed =
        (loop_attempts fetch stop th email r attempt apps failedVar s2 trace).permFailed ∧
      (loop_attempts fetch stop th email r attempt apps failedVar s1 trace).failedVar =
        (loop_attempts fetch stop th email r attempt apps failedVar s2 trace).failedVar ∧
      (loop_attempts fetch stop th email r attempt apps failedVar s1 trace).aborted =
        (loop_attempts fetch stop th email r attempt apps failedVar s2 trace).aborted ∧
      (loop_attempts fetch stop th email r attempt apps failedVar s1 trace).time =
        (loop_attempts fetch stop th email r attempt apps failedVar s2 trace).time ∧
      (loop_attempts fetch stop th email r attempt apps failedVar s1 trace).passTrace =
        (loop_attempts fetch stop th email r attempt apps failedVar s2 trace).passTrace := by
  intro r
  induction r with
  | zero =>
    intro attempt apps failedVar s1 s2 trace hp ht
    simp [loop_attempts, finish_run, hp, ht]
  | succ r ih =>
    intro attempt apps failedVar s1 s2 trace hp ht
    obtain ⟨hcf, habort, hproc, htime⟩ :=
      run_pass_csv_independent fetch stop th email attempt apps s1 s2 [] hp ht
    simp only [loop_attempts]
    rw [hcf, habort, hproc, htime]
    by_cases hab : (run_pass fetch stop th email attempt apps s2 []).aborted
    · rw [if_pos hab, if_pos hab]
      simp
    · rw [if_neg hab, if_neg hab]
      by_cases hr : r = 0
      · subst hr
        have hbeq0 : (0 == 0) = true := rfl
        rw [hbeq0]
        simp only [if_true, finish_run]
        simp
      · have hbeq : (r == 0) = false := by simp [hr]
        rw [hbeq]
        simp only [Bool.false_eq_true, if_false]
        by_cases hemp : (run_pass fetch stop th email attempt apps s2 []).curFailed.isEmpty
        · rw [if_pos hemp, if_pos hemp]
          simp [finish_run]
        · rw [if_neg hemp, if_neg hemp]
          exact ih (attempt + 1) _ _ _ _ _ rfl rfl

/-! ## Claim C5: retry termination and outcome partition -/

/-- C5 (confirmed): with `max_retries = 2` and any deterministic
per-record fetch outcome, a run without cancellation performs at most 3
passes, the first pass works the full record list, each later pass works
exactly the set that failed the previous pass (and a pass with no
failures is the last), a record is fetched at attempt `b` only if every
earlier attempt at it failed (so a record marked succeeded is never
re-fetched), the run is not aborted, and every record ends in exactly one
of `processed_numbers` (SUCCEEDED) or the permanently-failed set, the two
being disjoint. -/
theorem c5_retry_termination (fetch : String → Nat → Option DetailsData)
    (th : List String) (email : String) (csv : CsvState) (apps : List String) :
    (process_email_applications fetch (fun _ => false) th email csv apps).aborted = false ∧
    (process_email_applications fetch (fun _ => false) th email csv apps).passTrace.length ≤
      max_retries + 1 ∧
    (∃ f rest, (process_email_applications fetch (fun _ => false) th email csv apps).passTrace =
      (apps, f) :: rest) ∧
    trace_chained
      (process_email_applications fetch (fun _ => false) th email csv apps).passTrace ∧
    (∀ x b, LogMsg.processing x b ∈
        (process_email_applications fetch (fun _ => false) th email csv apps).log →
      ∀ a, a < b → (fetch x a).isSome = false) ∧
    (∀ x ∈ apps,
      x ∈ (process_email_applications fetch (fun _ => false) th email csv apps).processed ∨
      x ∈ (process_email_applications fetch (fun _ => false) th email csv apps).permFailed) ∧
    (∀ x ∈ (process_email_applications fetch (fun _ => false) th email csv apps).permFailed,
      x ∉ (process_email_applications fetch (fun _ => false) th email csv apps).processed) := by
  obtain ⟨hab, hmono, hpart, hdisj⟩ :=
    loop_nostop_partition fetch th email (max_retries + 1) 0 apps [] ⟨csv, [], 0, []⟩ []
      (Nat.succ_pos _) (by intro x _ hx; simp at hx)
  obtain ⟨newt, hnewt, hlen, hhead⟩ :=
    loop_trace fetch (fun _ => false) th email (max_retries + 1) 0 apps [] ⟨csv, [], 0, []⟩ []
  have hchain :=
    loop_chain fetch (fun _ => false) th email (max_retries + 1) 0 apps [] ⟨csv, [], 0, []⟩ []
      trivial trivial
  have hnoref :=
    loop_no_refetch fetch (fun _ => false) th email (max_retries + 1) 0 apps [] ⟨csv, [], 0, []⟩ []
      (by intro x b hx; simp at hx) (by intro x _ a ha; omega)
  refine ⟨hab, ?_, ?_, hchain, hnoref, hpart, hdisj⟩
  · rw [show (process_email_applications fetch (fun _ => false) th email csv apps).passTrace =
      [] ++ newt from hnewt]
    simpa using hlen
  · obtain ⟨f, rest, hfr⟩ := hhead (Nat.succ_pos _)
    refine ⟨f, rest, ?_⟩
    rw [show (process_email_applications fetch (fun _ => false) th email csv apps).passTrace =
      [] ++ newt from hnewt, hfr]
    simp

/-- C5 witness: the partition applied to the end-to-end scenario — `A1`
succeeds at once, `A2` fails twice and succeeds on the third attempt. -/
theorem c5_witness :
    "A2" ∈ (process_email_applications
        (fun app a =>
          if app == "A1" then some ⟨[], [], [], [], []⟩
          else if app == "A2" && a == 2 then some ⟨[], [], [], [], []⟩ else none)
        (fun _ => false) [] "e" ⟨["Email", "Application Number"], []⟩
        ["A1", "A2"]).processed ∨
    "A2" ∈ (process_email_applications
        (fun app a =>
          if app == "A1" then some ⟨[], [], [], [], []⟩
          else if app == "A2" && a == 2 then some ⟨[], [], [], [], []⟩ else none)
        (fun _ => false) [] "e" ⟨["Email", "Application Number"], []⟩
        ["A1", "A2"]).permFailed :=
  (c5_retry_termination
    (fun app a =>
      if app == "A1" then some ⟨[], [], [], [], []⟩
      else if app == "A2" && a == 2 then some ⟨[], [], [], [], []⟩ else none)
    [] "e" ⟨["Email", "Application Number"], []⟩ ["A1", "A2"]).2.2.2.2.2.1
    "A2" (by decide)

/-! ## Claim C8: cancellation semantics -/

/-- C8 (amended): the cancellation flag is polled before each fetch of a
not-yet-succeeded record, so every fetch happens at a poll instant where
the flag was unset; once a poll observes the flag the orchestrator
returns mid-pass: an aborted run reports no permanent failures, its log
ends with the generic "Process aborted by user" warning and contains no
summary lines, and a record is reported successful iff it is in
`processed_numbers` — unfinished record-ids end in neither set, but they
are NOT individually reported (see the counterexample). -/
theorem c8_cancellation (fetch : String → Nat → Option DetailsData) (stop : Nat → Bool)
    (th : List String) (email : String) (csv : CsvState) (apps : List String) :
    (∀ t, t < (process_email_applications fetch stop th email csv apps).time →
      stop t = false) ∧
    ((process_email_applications fetch stop th email csv apps).aborted = true →
      (process_email_applications fetch stop th email csv apps).permFailed = [] ∧
      (∃ l, (process_email_applications fetch stop th email csv apps).log =
        l ++ [.abortedByUser]) ∧
      (∀ n, LogMsg.summaryProcessed n ∉
          (process_email_applications fetch stop th email csv apps).log ∧
        LogMsg.summaryFailed n ∉
          (process_email_applications fetch stop th email csv apps).log)) ∧
    (∀ x, LogMsg.successMsg x ∈
        (process_email_applications fetch stop th email csv apps).log ↔
      x ∈ (process_email_applications fetch stop th email csv apps).processed) := by
  refine ⟨?_, ?_, ?_⟩
  · intro t ht
    exact (loop_poll fetch stop th email (max_retries + 1) 0 apps [] ⟨csv, [], 0, []⟩ []).2
      t (Nat.zero_le t) ht
  · intro habt
    exact loop_abort fetch stop th email (max_retries + 1) 0 apps [] ⟨csv, [], 0, []⟩ []
      (by intro n; simp) habt
  · exact loop_success_iff fetch stop th email (max_retries + 1) 0 apps [] ⟨csv, [], 0, []⟩ []
      (by intro x; simp)

/-- C8 counterexample: in a run cancelled after the first record, the
unfinished record `B` ends in neither outcome set — but contrary to the
claim it is NOT reported: the log carries only the generic abort warning,
and no entry of the whole run names `B`. -/
theorem c8_counterexample :
    (process_email_applications (fun _ _ => some ⟨[], [], [], [], []⟩)
        (fun t => decide (1 ≤ t)) [] "e" ⟨["Email", "Application Number"], []⟩
        ["A", "B"]).aborted = true ∧
    "B" ∉ (process_email_applications (fun _ _ => some ⟨[], [], [], [], []⟩)
        (fun t => decide (1 ≤ t)) [] "e" ⟨["Email", "Application Number"], []⟩
        ["A", "B"]).processed ∧
    "B" ∉ (process_email_applications (fun _ _ => some ⟨[], [], [], [], []⟩)
        (fun t => decide (1 ≤ t)) [] "e" ⟨["Email", "Application Number"], []⟩
        ["A", "B"]).permFailed ∧
    (process_email_applications (fun _ _ => some ⟨[], [], [], [], []⟩)
        (fun t => decide (1 ≤ t)) [] "e" ⟨["Email", "Application Number"], []⟩
        ["A", "B"]).log =
      [.processing "A" 0, .csvUpdated "A", .successMsg "A", .abortedByUser] ∧
    (process_email_applications (fun _ _ => some ⟨[], [], [], [], []⟩)
        (fun t => decide (1 ≤ t)) [] "e" ⟨["Email", "Application Number"], []⟩
        ["A", "B"]).log.all (fun m => !(mentions_app m "B")) = true := by decide

/-- C8 witness: the amended theorem applied to a concrete cancelled run. -/
theorem c8_witness :
    (process_email_applications (fun _ _ => some ⟨[], [], [], [], []⟩)
        (fun t => decide (1 ≤ t)) [] "u" ⟨["Email", "Application Number"], []⟩
        ["X", "Y"]).permFailed = [] ∧
    (LogMsg.successMsg "X" ∈ (process_email_applications (fun _ _ => some ⟨[], [], [], [], []⟩)
        (fun t => decide (1 ≤ t)) [] "u" ⟨["Email", "Application Number"], []⟩
        ["X", "Y"]).log ↔
      "X" ∈ (process_email_applications (fun _ _ => some ⟨[], [], [], [], []⟩)
        (fun t => decide (1 ≤ t)) [] "u" ⟨["Email", "Application Number"], []⟩
        ["X", "Y"]).processed) :=
  ⟨((c8_cancellation (fun _ _ => some ⟨[], [], [], [], []⟩) (fun t => decide (1 ≤ t))
      [] "u" ⟨["Email", "Application Number"], []⟩ ["X", "Y"]).2.1 (by decide)).1,
   (c8_cancellation (fun _ _ => some ⟨[], [], [], [], []⟩) (fun t => decide (1 ≤ t))
      [] "u" ⟨["Email", "Application Number"], []⟩ ["X", "Y"]).2.2 "X"⟩

/-! ## Claim C10: store failures are invisible to the orchestrator -/

/-- C10 (confirmed): `update_csv_with_email_data` never raises — an
internal error is logged and the artifact is returned unchanged — and the
orchestrator's outcome bookkeeping (`processed_numbers`, permanent
failures, abort status, fetch count, pass trace) is entirely independent
of the store: replacing the artifact with any other leaves it unchanged,
and every processed record is reported as successfully processed.  Hence
the reported success count does not imply the record's data was
persisted. -/
theorem c10_store_failure_invisible (fetch : String → Nat → Option DetailsData)
    (stop : Nat → Bool) (th : List String) (email : String)
    (apps : List String) (csv1 csv2 : CsvState) :
    (process_email_applications fetch stop th email csv1 apps).processed =
      (process_email_applications fetch stop th email csv2 apps).processed ∧
    (process_email_applications fetch stop th email csv1 apps).permFailed =
      (process_email_applications fetch stop th email csv2 apps).permFailed ∧
    (process_email_applications fetch stop th email csv1 apps).aborted =
      (process_email_applications fetch stop th email csv2 apps).aborted ∧
    (process_email_applications fetch stop th email csv1 apps).time =
      (process_email_applications fetch stop th email csv2 apps).time ∧
    (process_email_applications fetch stop th email csv1 apps).passTrace =
      (process_email_applications fetch stop th email csv2 apps).passTrace ∧
    (∀ x, x ∈ (process_email_applications fetch stop th email csv1 apps).processed →
      LogMsg.successMsg x ∈ (process_email_applications fetch stop th email csv1 apps).log) ∧
    (∀ (tableHeaders : List String) (st : CsvState) (e a : String) (dd : DetailsData),
      (update_csv_with_email_data tableHeaders st e a dd).2 = true →
      (update_csv_with_email_data tableHeaders st e a dd).1 = st) := by
  obtain ⟨h1, h2, _, h4, h5, h6⟩ :=
    loop_csv_independent fetch stop th email (max_retries + 1) 0 apps []
      ⟨csv1, [], 0, []⟩ ⟨csv2, [], 0, []⟩ [] rfl rfl
  refine ⟨h1, h2, h4, h5, h6, ?_, ?_⟩
  · intro x hx
    exact (loop_success_iff fetch stop th email (max_retries + 1) 0 apps []
      ⟨csv1, [], 0, []⟩ [] (by intro y; simp) x).mpr hx
  · intro tableHeaders st e a dd hflag
    unfold update_csv_with_email_data at hflag ⊢
    cases hgo : upsert_go st e a
        (build_row_data tableHeaders dd.basicRow dd.headersCol1 dd.dataCol1
          dd.headersCol3 dd.dataCol3 e a) with
    | ok st' => rw [hgo] at hflag; simp at hflag
    | error u => rfl

/-- C10 witness: on a malformed artifact the store write fails internally
(the run logs a CSV error), yet the record is marked processed and the
outcome sets match those of a run on a well-formed artifact. -/
theorem c10_witness :
    LogMsg.csvError ∈ (process_email_applications (fun _ _ => some ⟨[], [], [], [], []⟩)
        (fun _ => false) [] "e" ⟨["A"], [[]]⟩ ["A1"]).log ∧
    (process_email_applications (fun _ _ => some ⟨[], [], [], [], []⟩)
        (fun _ => false) [] "e" ⟨["A"], [[]]⟩ ["A1"]).processed =
      (process_email_applications (fun _ _ => some ⟨[], [], [], [], []⟩)
        (fun _ => false) [] "e" ⟨["Email", "Application Number"], []⟩ ["A1"]).processed ∧
    LogMsg.successMsg "A1" ∈ (process_email_applications (fun _ _ => some ⟨[], [], [], [], []⟩)
        (fun _ => false) [] "e" ⟨["A"], [[]]⟩ ["A1"]).log :=
  ⟨by decide,
   (c10_store_failure_invisible (fun _ _ => some ⟨[], [], [], [], []⟩) (fun _ => false)
      [] "e" ["A1"] ⟨["A"], [[]]⟩ ⟨["Email", "Application Number"], []⟩).1,
   (c10_store_failure_invisible (fun _ _ => some ⟨[], [], [], [], []⟩) (fun _ => false)
      [] "e" ["A1"] ⟨["A"], [[]]⟩ ⟨["Email", "Application Number"], []⟩).2.2.2.2.2.1
      "A1" (by decide)⟩
